import Mathlib

/-!
# The share worker of photoprism (`internal/workers/share.go`)

A shallow embedding of `Share.Start` and a verification of its retry,
skip, cancellation and filtering behaviour.

`Share.Start` is sequential code whose only effects are calls into other
packages (the run-lock, the query layer, the WebDAV client, the thumbnail
package, the database, the logger).  The embedding makes these calls
explicit: every call appends one `Event` to a trace, and the answer of a
fallible call is read from a `World`, which may depend on the whole trace
recorded so far.  A Go `error` is an `Option String`: `none` is `nil`,
`some msg` is an error whose `Error()` text is `msg`.
-/

namespace Workers

/-! ## Data model -/

/-- Modelled from the spec: the struct `entity.File`, declared outside this
file, reduced to the fields the worker reads: path and content hash. -/
structure File where
  FileName : String
  FileHash : String
deriving DecidableEq

/-- Modelled from the spec: the struct `entity.FileShare`, declared outside
this file, reduced to the fields the worker reads and writes: a remote
target path, a status, a cumulative error count, a last-error message and
the underlying local file.  The error count is a mathematical integer. -/
structure FileShare where
  RemoteName : String
  Status : String
  Errors : Int
  Error : String
  File : File
deriving DecidableEq

/-- Modelled from the spec: the struct `entity.Account`, declared outside
this file, reduced to the fields the worker reads: identifier, display name,
protocol type, endpoint, credentials, share size and retry limit (negative
when disabled). -/
structure Account where
  ID : Nat
  AccName : String
  AccType : String
  AccURL : String
  AccUser : String
  AccPass : String
  ShareSize : String
  RetryLimit : Int
deriving DecidableEq

/-- Modelled from the spec: an entry of the registry `thumb.Types`, declared
outside this file: width, height and resample options. -/
structure ThumbType where
  Width : Int
  Height : Int
  Options : List String
deriving DecidableEq

/-- Modelled from the spec: the status constant `entity.FileShareNew`, which
is declared outside this file; the four statuses New, Shared, Error and
Removed are distinct. -/
def entity.FileShareNew : String := "new"

/-- Modelled from the spec: the status constant `entity.FileShareError`. -/
def entity.FileShareError : String := "error"

/-- Modelled from the spec: the status constant `entity.FileShareShared`. -/
def entity.FileShareShared : String := "shared"

/-- Modelled from the spec: the status constant `entity.FileShareRemoved`. -/
def entity.FileShareRemoved : String := "removed"

/-- Modelled from the spec: the tag `remote.ServiceWebDAV` of the supported
remote-file protocol, declared outside this file. -/
def remote.ServiceWebDAV : String := "webdav"

/-! ## Calls made by the worker -/

/-- One call of `Share.Start` into another package.  Calls made while an
account `a` is being processed carry that account: the WebDAV client of an
account is `webdav.New(a.AccURL, a.AccUser, a.AccPass)`, so the account
determines the client a remote call goes to. -/
inductive Event where
  /-- Call of `mutex.ShareWorker.Start()` -/
  | mutexStart
  /-- Call of `mutex.ShareWorker.Stop()`, deferred -/
  | mutexStop
  /-- Call of `mutex.ShareWorker.Canceled()` together with its answer -/
  | canceled (answer : Bool)
  /-- Call of `event.Error(msg)` -/
  | eventError (msg : String)
  /-- Call of `log.Errorf` with the formatted message -/
  | logErrorf (msg : String)
  /-- Call of `log.Infof` with the formatted message -/
  | logInfof (msg : String)
  /-- Call of `query.AccountSearch(f)` where `f.Share = share` -/
  | accountSearch (share : Bool)
  /-- Call of `query.FileShares(a.ID, status)` -/
  | fileShares (a : Account) (status : String)
  /-- Call of `query.ExpiredFileShares(a)` -/
  | expiredFileShares (a : Account)
  /-- Call of `webdav.New(a.AccURL, a.AccUser, a.AccPass)` -/
  | webdavNew (a : Account)
  /-- Call of `client.CreateDir(dir)` -/
  | createDir (a : Account) (dir : String)
  /-- Call of `thumb.FromFile(src, hash, thumbPath, t.Width, t.Height, t.Options...)` -/
  | fromFile (a : Account) (src hash thumbPath : String) (t : ThumbType)
  /-- Call of `client.Upload(src, remoteName)` -/
  | upload (a : Account) (src remoteName : String)
  /-- Call of `client.Delete(remoteName)` -/
  | delete (a : Account) (remoteName : String)
  /-- Call of `entity.Db().Save(&file)` -/
  | save (a : Account) (file : FileShare)
deriving DecidableEq

/-- The configuration and the collaborators of the worker.  Every fallible
collaborator receives the trace of the calls made before it, so its answer
may change from call to call. -/
structure World where
  /-- The value of `worker.conf.OriginalsPath()` -/
  originalsPath : String
  /-- The value of `worker.conf.ThumbPath()` -/
  thumbPath : String
  /-- The function `filepath.Dir` of the Go standard library -/
  filepathDir : String → String
  /-- The function `path.Join` of the Go standard library, at two arguments -/
  pathJoin : String → String → String
  /-- The registry `thumb.Types`; `none` is a missing key -/
  thumbTypes : String → Option ThumbType
  /-- The answer of `mutex.ShareWorker.Start()` -/
  mutexStart : Option String
  /-- The answer of `mutex.ShareWorker.Canceled()` -/
  canceled : List Event → Bool
  /-- The answer of `query.AccountSearch` -/
  accountSearch : List Event → Bool → List Account × Option String
  /-- The answer of `query.FileShares` -/
  fileShares : List Event → Nat → String → List FileShare × Option String
  /-- The answer of `query.ExpiredFileShares` -/
  expiredFileShares : List Event → Account → List FileShare × Option String
  /-- The answer of `client.CreateDir` -/
  createDir : List Event → Account → String → Option String
  /-- The answer of `thumb.FromFile` -/
  thumbFromFile : List Event → Account → String → String → String → ThumbType →
    String × Option String
  /-- The answer of `client.Upload` -/
  upload : List Event → Account → String → String → Option String
  /-- The answer of `client.Delete` -/
  delete : List Event → Account → String → Option String
  /-- The answer of `entity.Db().Save(&file).Error` -/
  save : List Event → Account → FileShare → Option String

/-- How a loop body ends: it falls through to the next iteration (also by
`continue`), or it executes `return nil`. -/
inductive Ctl where
  | next
  | returnNil
deriving DecidableEq

/-- What a run of `Share.Start` yields: the calls it made, in order, and the
error it returned. -/
structure Result where
  trace : List Event
  err : Option String
deriving DecidableEq

/-! ## The worker -/

/-- The method `Share.logError`: logs an error message if `err` is not nil. -/
def Share.logError (err : Option String) : List Event :=
  match err with
  | some msg => [Event.logErrorf ("share: " ++ msg)]
  | none => []

/-- Lines 109-122 of `Share.Start`, the fields of the record: the outcome
`err` of `client.Upload` is recorded in `file`, then the retry limit of the
account is applied. -/
def recordUpload (a : Account) (file : FileShare) (err : Option String) : FileShare :=
  let file : FileShare :=
    match err with
    | some msg => { file with Errors := file.Errors + 1, Error := msg }
    | none => { file with Errors := 0, Error := "", Status := entity.FileShareShared }
  if a.RetryLimit ≥ 0 ∧ file.Errors > a.RetryLimit then
    { file with Status := entity.FileShareError }
  else file

/-- Lines 161-169 of `Share.Start`, the fields of the record: the outcome
`err` of `client.Delete` is recorded in `file`. -/
def recordDelete (file : FileShare) (err : Option String) : FileShare :=
  match err with
  | some msg => { file with Errors := file.Errors + 1, Error := msg }
  | none => { file with Errors := 0, Error := "", Status := entity.FileShareRemoved }

/-- Lines 82-89: the parent directory of the remote name is created unless
`existingDirs` has it.  Yields the trace and whether the body goes on
(`false` is the `continue` after a failed `CreateDir`). -/
def ensureDir (w : World) (a : Account) (existingDirs : List (String × String))
    (st : List Event) (file : FileShare) : List Event × Bool :=
  let dir := w.filepathDir file.RemoteName
  if (existingDirs.lookup dir).isNone then
    match w.createDir st a dir with
    | some _ =>
      (st ++ [Event.createDir a dir] ++
        [Event.logErrorf ("share: could not create folder " ++ dir)], false)
    | none => (st ++ [Event.createDir a dir], true)
  else (st, true)

/-- Lines 91-107: the file to upload, the original or its thumbnail.  Yields
the trace and the source file name; `none` is the `continue` after an
unknown share size or a failed `thumb.FromFile`. -/
def sourceFile (w : World) (a : Account) (st : List Event) (file : FileShare) :
    List Event × Option String :=
  let srcFileName := w.pathJoin w.originalsPath file.File.FileName
  if a.ShareSize ≠ "" then
    match w.thumbTypes a.ShareSize with
    | none => (st ++ [Event.logErrorf ("share: invalid size " ++ a.ShareSize)], none)
    | some thumbType =>
      let r := w.thumbFromFile st a srcFileName file.File.FileHash w.thumbPath thumbType
      let st := st ++ [Event.fromFile a srcFileName file.File.FileHash w.thumbPath thumbType]
      match r.2 with
      | some msg => (st ++ Share.logError (some msg), none)
      | none => (st, some r.1)
  else (st, some srcFileName)

/-- Lines 110 and 114 of `Share.Start`: what is logged about the outcome
`err` of `client.Upload`. -/
def uploadLog (a : Account) (file : FileShare) (err : Option String) : List Event :=
  match err with
  | some msg => Share.logError (some msg)
  | none => [Event.logInfof ("share: uploaded " ++ file.RemoteName ++ " to " ++ a.AccName)]

/-- Line 165 of `Share.Start`: what is logged about the outcome `err` of
`client.Delete`; a failed delete is not logged. -/
def deleteLog (a : Account) (file : FileShare) (err : Option String) : List Event :=
  match err with
  | some _ => []
  | none => [Event.logInfof ("share: removed " ++ file.RemoteName ++ " from " ++ a.AccName)]

/-- Lines 109-128: upload, bookkeeping, retry limit, cancellation check and
save.  Yields the record as the body leaves it, the trace and how the body
ends. -/
def uploadAndSave (w : World) (a : Account) (st : List Event) (file : FileShare)
    (srcFileName : String) : FileShare × List Event × Ctl :=
  let err := w.upload st a srcFileName file.RemoteName
  let st := st ++ [Event.upload a srcFileName file.RemoteName] ++ uploadLog a file err
  let file := recordUpload a file err
  let c := w.canceled st
  let st := st ++ [Event.canceled c]
  if c then (file, st, Ctl.returnNil)
  else
    let saved := w.save st a file
    (file, st ++ [Event.save a file] ++ Share.logError saved, Ctl.next)

/-- Lines 77-129, one iteration of the loop over the new shares of an
account.  `file` is the loop variable, a copy of the slice element; the
first component of the result is that copy when the iteration ends. -/
def uploadFile (w : World) (a : Account) (existingDirs : List (String × String))
    (st : List Event) (file : FileShare) : FileShare × List Event × Ctl :=
  let c := w.canceled st
  let st := st ++ [Event.canceled c]
  if c then (file, st, Ctl.returnNil)
  else
    match ensureDir w a existingDirs st file with
    | (st, false) => (file, st, Ctl.next)
    | (st, true) =>
      match sourceFile w a st file with
      | (st, none) => (file, st, Ctl.next)
      | (st, some srcFileName) => uploadAndSave w a st file srcFileName

/-- Lines 77-129, the loop over the new shares of an account.
`existingDirs` is never assigned to in the source, so every iteration sees
the map as it was made. -/
def uploadFiles (w : World) (a : Account) (existingDirs : List (String × String)) :
    List Event → List FileShare → List Event × Ctl
  | st, [] => (st, Ctl.next)
  | st, file :: files =>
    match uploadFile w a existingDirs st file with
    | (_, st, Ctl.returnNil) => (st, Ctl.returnNil)
    | (_, st, Ctl.next) => uploadFiles w a existingDirs st files

/-- Lines 53-130, one iteration of the first loop over the accounts. -/
def uploadAccount (w : World) (st : List Event) (a : Account) : List Event × Ctl :=
  let c := w.canceled st
  let st := st ++ [Event.canceled c]
  if c then (st, Ctl.returnNil)
  else if a.AccType ≠ remote.ServiceWebDAV then (st, Ctl.next)
  else
    let r := w.fileShares st a.ID entity.FileShareNew
    let st := st ++ [Event.fileShares a entity.FileShareNew]
    match r.2 with
    | some msg => (st ++ Share.logError (some msg), Ctl.next)
    | none =>
      if r.1.length = 0 then (st, Ctl.next)
      else uploadFiles w a [] (st ++ [Event.webdavNew a]) r.1

/-- Lines 53-130, the first loop over the accounts. -/
def uploadAccounts (w : World) : List Event → List Account → List Event × Ctl
  | st, [] => (st, Ctl.next)
  | st, a :: accounts =>
    match uploadAccount w st a with
    | (st, Ctl.returnNil) => (st, Ctl.returnNil)
    | (st, Ctl.next) => uploadAccounts w st accounts

/-- Lines 156-174, one iteration of the loop over the expired shares of an
account. -/
def expireFile (w : World) (a : Account) (st : List Event) (file : FileShare) :
    FileShare × List Event × Ctl :=
  let c := w.canceled st
  let st := st ++ [Event.canceled c]
  if c then (file, st, Ctl.returnNil)
  else
    let err := w.delete st a file.RemoteName
    let st := st ++ [Event.delete a file.RemoteName] ++ deleteLog a file err
    let file := recordDelete file err
    let saved := w.save st a file
    (file, st ++ [Event.save a file] ++ Share.logError saved, Ctl.next)

/-- Lines 156-174, the loop over the expired shares of an account. -/
def expireFiles (w : World) (a : Account) : List Event → List FileShare → List Event × Ctl
  | st, [] => (st, Ctl.next)
  | st, file :: files =>
    match expireFile w a st file with
    | (_, st, Ctl.returnNil) => (st, Ctl.returnNil)
    | (_, st, Ctl.next) => expireFiles w a st files

/-- Lines 133-175, one iteration of the second loop over the accounts. -/
def expireAccount (w : World) (st : List Event) (a : Account) : List Event × Ctl :=
  let c := w.canceled st
  let st := st ++ [Event.canceled c]
  if c then (st, Ctl.returnNil)
  else if a.AccType ≠ remote.ServiceWebDAV then (st, Ctl.next)
  else
    let r := w.expiredFileShares st a
    let st := st ++ [Event.expiredFileShares a]
    match r.2 with
    | some msg => (st ++ Share.logError (some msg), Ctl.next)
    | none =>
      if r.1.length = 0 then (st, Ctl.next)
      else expireFiles w a (st ++ [Event.webdavNew a]) r.1

/-- Lines 133-175, the second loop over the accounts. -/
def expireAccounts (w : World) : List Event → List Account → List Event × Ctl
  | st, [] => (st, Ctl.next)
  | st, a :: accounts =>
    match expireAccount w st a with
    | (st, Ctl.returnNil) => (st, Ctl.returnNil)
    | (st, Ctl.next) => expireAccounts w st accounts

/-- The method `Share.Start`: starts the share worker.  The variable `err` returned in
line 177 is the named result, assigned once, by the account query of line
50; the `err` of lines 62, 101 and 142 are variables of the loop bodies. -/
def Share.Start (w : World) : Result :=
  match w.mutexStart with
  | some msg =>
    { trace := [Event.mutexStart, Event.eventError ("share: " ++ msg)], err := some msg }
  | none =>
    let st := [Event.mutexStart]
    let r := w.accountSearch st true
    let st := st ++ [Event.accountSearch true]
    match uploadAccounts w st r.1 with
    | (st, Ctl.returnNil) => { trace := st ++ [Event.mutexStop], err := none }
    | (st, Ctl.next) =>
      match expireAccounts w st r.1 with
      | (st, Ctl.returnNil) => { trace := st ++ [Event.mutexStop], err := none }
      | (st, Ctl.next) => { trace := st ++ [Event.mutexStop], err := r.2 }

/-! ## Reading a trace -/

/-- Every event but a poll of `Canceled()` counts as a call. -/
def Event.isCall : Event → Bool
  | Event.canceled _ => false
  | _ => true

/-- The remote calls (`CreateDir`, `Upload`, `Delete`) and the persistence
call (`Save`). -/
def Event.isRemoteOrSave : Event → Bool
  | Event.createDir _ _ => true
  | Event.upload _ _ _ => true
  | Event.delete _ _ => true
  | Event.save _ _ => true
  | _ => false

/-- The calls an iteration makes for one record after it has found its
source file: `Upload` and `Save`. -/
def Event.isUploadOrSave : Event → Bool
  | Event.upload _ _ _ => true
  | Event.save _ _ => true
  | _ => false

/-- The account on whose behalf a call is made: record queries, client
creation, remote calls and saves have one. -/
def Event.account : Event → Option Account
  | Event.fileShares a _ => some a
  | Event.expiredFileShares a => some a
  | Event.webdavNew a => some a
  | Event.createDir a _ => some a
  | Event.fromFile a _ _ _ _ => some a
  | Event.upload a _ _ => some a
  | Event.delete a _ => some a
  | Event.save a _ => some a
  | _ => none

/-- Whether the event is a call of `entity.Db().Save`. -/
def Event.isSave : Event → Bool
  | Event.save _ _ => true
  | _ => false

/-- The remote and persistence calls of a trace that start at or after
position `p` of the trace, that is, after the first `p` events. -/
def lateCalls (p : Nat) (st : List Event) : List Event :=
  (st.drop p).filter Event.isRemoteOrSave

/-- The world `w` with a cancellation request that arrives at point `p` of
the run, after the first `p` events (calls and polls) of the trace and
before the next one: `Canceled()` answers `false` in each of the first `p`
events and `true` from then on.  Every point of a run is such a `p`: the
request arrives while the event before position `p` is in flight, or between
that event and the next. -/
def World.cancelAt (w : World) (p : Nat) : World :=
  { w with canceled := fun st => decide (p ≤ st.length) }

/-- Where a piece of code ends: it goes on to the next iteration, with `Inv`
of the trace, or it executes `return nil`, with `Post` of the trace. -/
def Ends (Inv Post : List Event → Prop) (r : List Event × Ctl) : Prop :=
  (r.2 = Ctl.next → Inv r.1) ∧ (r.2 = Ctl.returnNil → Post r.1)

/-- Where a piece of code that polls `Canceled()` ends: it goes on with a
trace of events that satisfy `P`, or it returns right after a poll that
answered `true`, the events before that poll satisfying `P`. -/
def EndsAll (P : Event → Prop) (r : List Event × Ctl) : Prop :=
  Ends (fun st => ∀ e ∈ st, P e)
    (fun st => ∃ pre, st = pre ++ [Event.canceled true] ∧ ∀ e ∈ pre, P e) r

/-- The property `P` holds of every event that processing account `a`
appends, a poll answered `true` apart. -/
def Covers (a : Account) (P : Event → Prop) : Prop :=
  ∀ e, (e.account = none ∨ e.account = some a) → e ≠ Event.canceled true → P e

/-- Every record query, client, remote call and save of the trace is made
for an account of the WebDAV type. -/
def OnlyWebDAV (st : List Event) : Prop :=
  ∀ e ∈ st, ∀ a, e.account = some a → a.AccType = remote.ServiceWebDAV

/-- The remote and persistence calls that may start after a cancellation
request: none; one `CreateDir`, `Upload` or `Save`; `CreateDir` followed by
`Upload`; `Delete` followed by `Save`. -/
def allowedLate : List Event → Bool
  | [] => true
  | [Event.createDir _ _] => true
  | [Event.upload _ _ _] => true
  | [Event.save _ _] => true
  | [Event.createDir _ _, Event.upload _ _ _] => true
  | [Event.delete _ _, Event.save _ _] => true
  | _ => false

/-- At most one call, an `Upload` or a `Save`. -/
def StrictLate (late : List Event) : Prop :=
  late.length ≤ 1 ∧ ∀ e ∈ late, e.isUploadOrSave = true

/-- The event before position `p` of the trace is a poll of `Canceled()`. -/
def PollAt (p : Nat) (st : List Event) : Prop :=
  0 < p ∧ ∃ b, st[p - 1]? = some (Event.canceled b)

/-- What holds of a trace with respect to a request at point `p`: the late
calls are among the allowed ones, and they are at most one `Upload` or
`Save` unless the event before `p` is a poll. -/
def Honoured (p : Nat) (st : List Event) : Prop :=
  allowedLate (lateCalls p st) = true ∧ (PollAt p st ∨ StrictLate (lateCalls p st))

/-- What may hold between the directory step and the upload: no late call,
or a late `CreateDir` after a poll before `p`. -/
def LateDirOnly (p : Nat) (a : Account) (st : List Event) : Prop :=
  lateCalls p st = [] ∨ (PollAt p st ∧ ∃ dir, lateCalls p st = [Event.createDir a dir])

/-- Every poll of the trace answers `true` exactly when it is made at or
after position `p`. -/
def PollsTruthful (p : Nat) (st : List Event) : Prop :=
  ∀ i b, st[i]? = some (Event.canceled b) → b = decide (p ≤ i)

/-- Every record that a `Save` of the trace receives satisfies `Q`. -/
def SavesOnly (Q : FileShare → Prop) (st : List Event) : Prop :=
  ∀ b f, Event.save b f ∈ st → Q f

/-- Modelled from the spec: the storage behind `entity.Db().Save`, which is
declared outside this file, for one record.  The record in storage after the
call `e`, made after the calls `hist`: a `Save` that answers nil stores its
argument, a `Save` that answers an error stores nothing, no other call
writes. -/
def storedAfterCall (w : World) (hist : List Event) (e : Event) (stored : FileShare) :
    FileShare :=
  match e with
  | Event.save a file => if w.save hist a file = none then file else stored
  | _ => stored

/-- The record in storage after the calls `todo`, made one after the other
after the calls `hist`. -/
def storedAfter (w : World) : List Event → List Event → FileShare → FileShare
  | _, [], stored => stored
  | hist, e :: todo, stored =>
    storedAfter w (hist ++ [e]) todo (storedAfterCall w hist e stored)

/-- Modelled from the spec: the query layer, which is declared outside this
file, in front of a storage that holds the one record `stored` of account
`a`: the account query answers with `a`, the query for the shares of a
status answers with `stored` when it has that status, and no share is
expired. -/
def World.withStored (w : World) (a : Account) (stored : FileShare) : World :=
  { w with
    accountSearch := fun _ _ => ([a], none)
    fileShares := fun _ _ status => (if stored.Status = status then [stored] else [], none)
    expiredFileShares := fun _ _ => ([], none) }

/-- One pass: a run of `Share.Start` over the stored record.  Yields the
record in storage after the run. -/
def pass (w : World) (a : Account) (stored : FileShare) : FileShare :=
  storedAfter (w.withStored a stored) [] (Share.Start (w.withStored a stored)).trace stored

/-- One pass after the other, each in its own world; every pass reads what
the passes before it have left in storage. -/
def passes (a : Account) (ws : List World) (stored : FileShare) : FileShare :=
  ws.foldl (fun s w => pass w a s) stored

/-- A pass of account `a` in which the upload of the record is attempted and
fails and the record is saved: the run-lock is free, `a` is a WebDAV
account, `Canceled()` answers false as long as nothing has been saved,
`CreateDir` succeeds, the share size of `a` is empty or the thumbnail is
derived, `Upload` fails and `Save` succeeds. -/
def FailedAndSaved (w : World) (a : Account) : Prop :=
  w.mutexStart = none ∧
  a.AccType = remote.ServiceWebDAV ∧
  (∀ hist, (∀ e ∈ hist, e.isSave = false) → w.canceled hist = false) ∧
  (∀ hist dir, w.createDir hist a dir = none) ∧
  (a.ShareSize = "" ∨ ∃ t, w.thumbTypes a.ShareSize = some t ∧
    ∀ hist src hash, (w.thumbFromFile hist a src hash w.thumbPath t).2 = none) ∧
  (∀ hist src dst, (w.upload hist a src dst).isSome = true) ∧
  (∀ hist file, w.save hist a file = none)

/-! ## Concrete runs -/

/-- A stand-in for `filepath.Dir` on clean slash-separated paths: the path
without its last element. -/
def parentDir (name : String) : String :=
  match (name.data.reverse.dropWhile (fun ch => ch != '/')).drop 1 with
  | [] => if name.data.head? = some '/' then "/" else "."
  | r => String.mk r.reverse

/-- A world without accounts in which no call fails and nobody cancels. -/
def calm : World where
  originalsPath := "/originals"
  thumbPath := "/cache/thumbs"
  filepathDir := parentDir
  pathJoin := fun x y => x ++ "/" ++ y
  thumbTypes := fun size =>
    if size = "fit_720" then some { Width := 720, Height := 720, Options := [] } else none
  mutexStart := none
  canceled := fun _ => false
  accountSearch := fun _ _ => ([], none)
  fileShares := fun _ _ _ => ([], none)
  expiredFileShares := fun _ _ => ([], none)
  createDir := fun _ _ _ => none
  thumbFromFile := fun _ _ _ hash thumbPath _ => (thumbPath ++ "/" ++ hash ++ ".jpg", none)
  upload := fun _ _ _ _ => none
  delete := fun _ _ _ => none
  save := fun _ _ _ => none

/-- A WebDAV account with retry limit 1 that shares originals. -/
def accountX : Account where
  ID := 1
  AccName := "X"
  AccType := "webdav"
  AccURL := "https://dav.example.com/"
  AccUser := "alice"
  AccPass := "secret"
  ShareSize := ""
  RetryLimit := 1

/-- A WebDAV account with retry limit 0 that shares 720 pixel thumbnails. -/
def accountY : Account :=
  { accountX with ID := 2, AccName := "Y", ShareSize := "fit_720", RetryLimit := 0 }

/-- An account of another protocol. -/
def accountZ : Account :=
  { accountX with ID := 3, AccName := "Z", AccType := "ftp" }

/-- A new share below `/shared/album1`. -/
def shareR1 : FileShare where
  RemoteName := "/shared/album1/a.jpg"
  Status := "new"
  Errors := 0
  Error := ""
  File := { FileName := "2020/a.jpg", FileHash := "aaaa" }

/-- A second new share below `/shared/album1`. -/
def shareR2 : FileShare where
  RemoteName := "/shared/album1/b.jpg"
  Status := "new"
  Errors := 0
  Error := ""
  File := { FileName := "2020/b.jpg", FileHash := "bbbb" }

/-- A share in status Error that has failed five times. -/
def shareR4 : FileShare where
  RemoteName := "/shared/album2/c.jpg"
  Status := "error"
  Errors := 5
  Error := "upload failed"
  File := { FileName := "2019/c.jpg", FileHash := "cccc" }

/-- Account X has the two new shares R1 and R2; every call succeeds. -/
def twoShares : World :=
  { calm with
    accountSearch := fun _ _ => ([accountX], none)
    fileShares := fun _ _ _ => ([shareR1, shareR2], none) }

/-- The account query answers with account X and an error; X has the new
share R1. -/
def failedSearch : World :=
  { calm with
    accountSearch := fun _ _ => ([accountX], some "database is locked")
    fileShares := fun _ _ _ => ([shareR1], none) }

/-- Account X has the new share R1 and the expired share R4; every call
succeeds. -/
def newAndExpired : World :=
  { calm with
    accountSearch := fun _ _ => ([accountX], none)
    fileShares := fun _ _ _ => ([shareR1], none)
    expiredFileShares := fun _ _ => ([shareR4], none) }

/-- Thumbnail derivation fails in this world. -/
def noThumbs : World :=
  { calm with thumbFromFile := fun _ _ _ _ _ _ => ("", some "thumbnail: file not found") }

/-- The remote end refuses every call and the database every save. -/
def offline : World :=
  { calm with
    createDir := fun _ _ _ => some "connection refused"
    upload := fun _ _ _ _ => some "connection refused"
    delete := fun _ _ _ => some "connection refused"
    save := fun _ _ _ => some "database is locked" }

/-- A WebDAV account whose share size is no key of `thumb.Types`. -/
def accountW : Account :=
  { accountX with ID := 4, AccName := "W", ShareSize := "poster" }

/-- A share in status Shared that has failed three times. -/
def shareR3 : FileShare where
  RemoteName := "/shared/album2/d.jpg"
  Status := "shared"
  Errors := 3
  Error := "connection reset"
  File := { FileName := "2019/d.jpg", FileHash := "dddd" }

/-- The account query answers with account Z and account X; X has the two
new shares R1 and R2. -/
def mixed : World :=
  { twoShares with accountSearch := fun _ _ => ([accountZ, accountX], none) }

/-- Another instance of the worker holds the run-lock. -/
def busy : World :=
  { twoShares with mutexStart := some "share worker already running" }

/-- Every upload fails with a timeout; every other call succeeds. -/
def uploadDown : World :=
  { calm with upload := fun _ _ _ _ => some "timeout" }

/-- Every upload fails with a timeout and the database refuses every save. -/
def uploadAndDatabaseDown : World :=
  { uploadDown with save := fun _ _ _ => some "database is locked" }

/-! ## The record after an upload -/

theorem recordUpload_failed_errors (a : Account) (file : FileShare) (msg : String) :
    (recordUpload a file (some msg)).Errors = file.Errors + 1 := by
  simp only [recordUpload]
  split <;> rfl

theorem recordUpload_failed_status (a : Account) (file : FileShare) (msg : String) :
    (recordUpload a file (some msg)).Status =
      if 0 ≤ a.RetryLimit ∧ a.RetryLimit < file.Errors + 1 then entity.FileShareError
      else file.Status := by
  simp only [recordUpload, ge_iff_le, gt_iff_lt]
  split <;> simp_all

/-! ## Success resets the counters -/

theorem recordUpload_success (a : Account) (file : FileShare) :
    recordUpload a file none =
      { file with Errors := 0, Error := "", Status := entity.FileShareShared } := by
  simp only [recordUpload, ge_iff_le, gt_iff_lt]
  rw [if_neg (by omega)]

theorem uploadAndSave_record (w : World) (a : Account) (st : List Event) (file : FileShare)
    (srcFileName : String) :
    (uploadAndSave w a st file srcFileName).1 =
      recordUpload a file (w.upload st a srcFileName file.RemoteName) := by
  unfold uploadAndSave
  simp only
  split <;> rfl

/-- C3: whatever the record, its error count, its status and the retry limit
of the account are, an iteration whose `client.Upload` succeeds leaves the
record with `Errors = 0`, an empty error message and status Shared, and an
iteration of the expiration phase whose `client.Delete` succeeds leaves the
record with `Errors = 0`, an empty error message and status Removed. -/
theorem success_resets_counters (w : World) (a : Account) (st st2 : List Event)
    (file file2 : FileShare) (srcFileName : String)
    (hupload : w.upload st a srcFileName file.RemoteName = none)
    (hrun : w.canceled st2 = false)
    (hdelete : w.delete (st2 ++ [Event.canceled false]) a file2.RemoteName = none) :
    (uploadAndSave w a st file srcFileName).1 =
      { file with Errors := 0, Error := "", Status := entity.FileShareShared } ∧
    (expireFile w a st2 file2).1 =
      { file2 with Errors := 0, Error := "", Status := entity.FileShareRemoved } := by
  constructor
  · rw [uploadAndSave_record, hupload, recordUpload_success]
  · unfold expireFile
    simp only [hrun, hdelete, recordDelete, Bool.false_eq_true, if_false]

/-- Scenario C of the specification: R4 is in status Error with five
errors; its delete succeeds and leaves it Removed with no errors.  A
successful upload of R4 under retry limit 0 leaves it Shared. -/
theorem success_resets_counters_witness :
    (uploadAndSave calm accountY [] shareR4 "/originals/2019/c.jpg").1 =
      { shareR4 with Errors := 0, Error := "", Status := entity.FileShareShared } ∧
    (expireFile calm accountX [] shareR4).1 =
      { shareR4 with Errors := 0, Error := "", Status := entity.FileShareRemoved } :=
  success_resets_counters calm accountY [] [] shareR4 shareR4 "/originals/2019/c.jpg"
    rfl rfl rfl

/-! ## The run-lock -/

/-- C9: when `mutex.ShareWorker.Start()` fails, `Share.Start` reports the
error with `event.Error` and returns it; it makes no other call: no account
query, no record query, no client, no remote call, no save, and no
`mutex.ShareWorker.Stop()`. -/
theorem busy_gate_returns_at_once (w : World) (msg : String)
    (hbusy : w.mutexStart = some msg) :
    Share.Start w =
      { trace := [Event.mutexStart, Event.eventError ("share: " ++ msg)], err := some msg } := by
  unfold Share.Start
  rw [hbusy]

/-- A run against a held run-lock, in a world where account X has two new
shares to upload. -/
theorem busy_gate_returns_at_once_witness :
    Share.Start busy =
      { trace := [Event.mutexStart,
          Event.eventError ("share: " ++ "share worker already running")],
        err := some "share worker already running" } :=
  busy_gate_returns_at_once busy "share worker already running" rfl

/-! ## Loop rules -/

theorem uploadFiles_cons (w : World) (a : Account) (dirs : List (String × String))
    (st : List Event) (file : FileShare) (files : List FileShare) :
    uploadFiles w a dirs st (file :: files) =
      if (uploadFile w a dirs st file).2.2 = Ctl.returnNil then
        ((uploadFile w a dirs st file).2.1, Ctl.returnNil)
      else uploadFiles w a dirs (uploadFile w a dirs st file).2.1 files := by
  rw [uploadFiles]
  rcases uploadFile w a dirs st file with ⟨f, st1, c⟩
  cases c <;> simp

theorem expireFiles_cons (w : World) (a : Account)
    (st : List Event) (file : FileShare) (files : List FileShare) :
    expireFiles w a st (file :: files) =
      if (expireFile w a st file).2.2 = Ctl.returnNil then
        ((expireFile w a st file).2.1, Ctl.returnNil)
      else expireFiles w a (expireFile w a st file).2.1 files := by
  rw [expireFiles]
  rcases expireFile w a st file with ⟨f, st1, c⟩
  cases c <;> simp

theorem uploadAccounts_cons (w : World) (st : List Event) (a : Account)
    (accounts : List Account) :
    uploadAccounts w st (a :: accounts) =
      if (uploadAccount w st a).2 = Ctl.returnNil then
        ((uploadAccount w st a).1, Ctl.returnNil)
      else uploadAccounts w (uploadAccount w st a).1 accounts := by
  rw [uploadAccounts]
  rcases uploadAccount w st a with ⟨st1, c⟩
  cases c <;> simp

theorem expireAccounts_cons (w : World) (st : List Event) (a : Account)
    (accounts : List Account) :
    expireAccounts w st (a :: accounts) =
      if (expireAccount w st a).2 = Ctl.returnNil then
        ((expireAccount w st a).1, Ctl.returnNil)
      else expireAccounts w (expireAccount w st a).1 accounts := by
  rw [expireAccounts]
  rcases expireAccount w st a with ⟨st1, c⟩
  cases c <;> simp

theorem Ctl.eq_next_of_ne {c : Ctl} (h : ¬ c = Ctl.returnNil) : c = Ctl.next := by
  cases c <;> simp_all

theorem uploadFiles_rule (w : World) (a : Account) (dirs : List (String × String))
    (Inv Post : List Event → Prop)
    (hbody : ∀ st file, Inv st → Ends Inv Post (uploadFile w a dirs st file).2)
    (files : List FileShare) (st : List Event) (h : Inv st) :
    Ends Inv Post (uploadFiles w a dirs st files) := by
  induction files generalizing st with
  | nil => exact ⟨fun _ => h, fun hc => by simp [uploadFiles] at hc⟩
  | cons file files ih =>
    rw [uploadFiles_cons]
    split
    · next hc => exact ⟨fun h2 => by simp at h2, fun _ => (hbody st file h).2 hc⟩
    · next hc => exact ih _ ((hbody st file h).1 (Ctl.eq_next_of_ne hc))

theorem expireFiles_rule (w : World) (a : Account)
    (Inv Post : List Event → Prop)
    (hbody : ∀ st file, Inv st → Ends Inv Post (expireFile w a st file).2)
    (files : List FileShare) (st : List Event) (h : Inv st) :
    Ends Inv Post (expireFiles w a st files) := by
  induction files generalizing st with
  | nil => exact ⟨fun _ => h, fun hc => by simp [expireFiles] at hc⟩
  | cons file files ih =>
    rw [expireFiles_cons]
    split
    · next hc => exact ⟨fun h2 => by simp at h2, fun _ => (hbody st file h).2 hc⟩
    · next hc => exact ih _ ((hbody st file h).1 (Ctl.eq_next_of_ne hc))

theorem uploadAccounts_rule (w : World) (Inv Post : List Event → Prop)
    (accounts : List Account)
    (hbody : ∀ st a, a ∈ accounts → Inv st → Ends Inv Post (uploadAccount w st a))
    (st : List Event) (h : Inv st) :
    Ends Inv Post (uploadAccounts w st accounts) := by
  induction accounts generalizing st with
  | nil => exact ⟨fun _ => h, fun hc => by simp [uploadAccounts] at hc⟩
  | cons a accounts ih =>
    have ha := hbody st a (List.mem_cons_self a accounts) h
    rw [uploadAccounts_cons]
    split
    · next hc => exact ⟨fun h2 => by simp at h2, fun _ => ha.2 hc⟩
    · next hc =>
      exact ih (fun st2 b hb => hbody st2 b (List.mem_cons_of_mem a hb)) _
        (ha.1 (Ctl.eq_next_of_ne hc))

theorem expireAccounts_rule (w : World) (Inv Post : List Event → Prop)
    (accounts : List Account)
    (hbody : ∀ st a, a ∈ accounts → Inv st → Ends Inv Post (expireAccount w st a))
    (st : List Event) (h : Inv st) :
    Ends Inv Post (expireAccounts w st accounts) := by
  induction accounts generalizing st with
  | nil => exact ⟨fun _ => h, fun hc => by simp [expireAccounts] at hc⟩
  | cons a accounts ih =>
    have ha := hbody st a (List.mem_cons_self a accounts) h
    rw [expireAccounts_cons]
    split
    · next hc => exact ⟨fun h2 => by simp at h2, fun _ => ha.2 hc⟩
    · next hc =>
      exact ih (fun st2 b hb => hbody st2 b (List.mem_cons_of_mem a hb)) _
        (ha.1 (Ctl.eq_next_of_ne hc))

/-! ## What an iteration appends to the trace -/

theorem all_snoc {P : Event → Prop} {st : List Event} {x : Event}
    (h : ∀ e ∈ st, P e) (hx : P x) : ∀ e ∈ st ++ [x], P e := by
  simp only [List.forall_mem_append, List.forall_mem_singleton]
  exact ⟨h, hx⟩

theorem all_logError {P : Event → Prop} {st : List Event} {a : Account} (hP : Covers a P)
    (err : Option String) (h : ∀ e ∈ st, P e) : ∀ e ∈ st ++ Share.logError err, P e := by
  cases err with
  | none => simpa [Share.logError] using h
  | some msg => exact all_snoc h (hP _ (by simp [Event.account]) (by simp))

theorem all_uploadLog {P : Event → Prop} {st : List Event} {a : Account} (hP : Covers a P)
    (file : FileShare) (err : Option String) (h : ∀ e ∈ st, P e) :
    ∀ e ∈ st ++ uploadLog a file err, P e := by
  cases err with
  | none => exact all_snoc h (hP _ (by simp [Event.account]) (by simp))
  | some msg => exact all_logError hP (some msg) h

theorem all_deleteLog {P : Event → Prop} {st : List Event} {a : Account} (hP : Covers a P)
    (file : FileShare) (err : Option String) (h : ∀ e ∈ st, P e) :
    ∀ e ∈ st ++ deleteLog a file err, P e := by
  cases err with
  | none => exact all_snoc h (hP _ (by simp [Event.account]) (by simp))
  | some msg => simpa [deleteLog] using h

theorem ensureDir_all (w : World) (a : Account) (dirs : List (String × String))
    (st : List Event) (file : FileShare) (P : Event → Prop) (hP : Covers a P)
    (h : ∀ e ∈ st, P e) : ∀ e ∈ (ensureDir w a dirs st file).1, P e := by
  unfold ensureDir
  simp only
  repeat' split
  all_goals
    simp only [List.forall_mem_append, List.forall_mem_cons, List.forall_mem_singleton,
      List.not_mem_nil, false_implies, implies_true, and_true]
  all_goals repeat' apply And.intro
  all_goals first
    | exact h
    | (apply hP <;> simp [Event.account])

theorem sourceFile_all (w : World) (a : Account)
    (st : List Event) (file : FileShare) (P : Event → Prop) (hP : Covers a P)
    (h : ∀ e ∈ st, P e) : ∀ e ∈ (sourceFile w a st file).1, P e := by
  unfold sourceFile Share.logError
  simp only
  repeat' split
  all_goals
    simp only [List.forall_mem_append, List.forall_mem_cons, List.forall_mem_singleton,
      List.not_mem_nil, false_implies, implies_true, and_true]
  all_goals repeat' apply And.intro
  all_goals first
    | exact h
    | (apply hP <;> simp [Event.account])

theorem poll_ends (P : Event → Prop) (st : List Event) (h : ∀ e ∈ st, P e) :
    EndsAll P (st ++ [Event.canceled true], Ctl.returnNil) :=
  ⟨fun hc => by simp at hc, fun _ => ⟨st, rfl, h⟩⟩

theorem next_ends (P : Event → Prop) (st : List Event) (h : ∀ e ∈ st, P e) :
    EndsAll P (st, Ctl.next) :=
  ⟨fun _ => h, fun hc => by simp at hc⟩

theorem all_poll_false {P : Event → Prop} {st : List Event} {a : Account} (hP : Covers a P)
    (h : ∀ e ∈ st, P e) : ∀ e ∈ st ++ [Event.canceled false], P e :=
  all_snoc h (hP _ (by simp [Event.account]) (by simp))

theorem uploadAndSave_ends (w : World) (a : Account) (st : List Event) (file : FileShare)
    (src : String) (P : Event → Prop) (hP : Covers a P) (h : ∀ e ∈ st, P e) :
    EndsAll P (uploadAndSave w a st file src).2 := by
  unfold uploadAndSave
  simp only
  have h1 := all_uploadLog hP file (w.upload st a src file.RemoteName)
    (all_snoc h (hP (Event.upload a src file.RemoteName) (by simp [Event.account]) (by simp)))
  generalize st ++ [Event.upload a src file.RemoteName] ++
    uploadLog a file (w.upload st a src file.RemoteName) = st1 at h1
  cases hc : w.canceled st1 with
  | true => exact poll_ends P _ h1
  | false =>
    refine next_ends P _ (all_logError hP _ (all_snoc (all_poll_false hP h1) ?_))
    exact hP _ (by simp [Event.account]) (by simp)

theorem uploadFile_ends (w : World) (a : Account) (dirs : List (String × String))
    (st : List Event) (file : FileShare) (P : Event → Prop) (hP : Covers a P)
    (h : ∀ e ∈ st, P e) : EndsAll P (uploadFile w a dirs st file).2 := by
  unfold uploadFile
  simp only
  cases hc : w.canceled st with
  | true => exact poll_ends P _ h
  | false =>
    have h2 := ensureDir_all w a dirs _ file P hP (all_poll_false hP h)
    simp only [Bool.false_eq_true, if_false]
    split
    · next st2 heq =>
      rw [heq] at h2
      exact next_ends P _ h2
    · next st2 heq =>
      rw [heq] at h2
      have h3 := sourceFile_all w a st2 file P hP h2
      split
      · next st3 heq3 =>
        rw [heq3] at h3
        exact next_ends P _ h3
      · next st3 src heq3 =>
        rw [heq3] at h3
        exact uploadAndSave_ends w a st3 file src P hP h3

theorem expireFile_ends (w : World) (a : Account)
    (st : List Event) (file : FileShare) (P : Event → Prop) (hP : Covers a P)
    (h : ∀ e ∈ st, P e) : EndsAll P (expireFile w a st file).2 := by
  unfold expireFile
  simp only
  cases hc : w.canceled st with
  | true => exact poll_ends P _ h
  | false =>
    simp only [Bool.false_eq_true, if_false]
    refine next_ends P _ (all_logError hP _ (all_snoc (all_deleteLog hP _ _
      (all_snoc (all_poll_false hP h) ?_)) ?_))
    · exact hP _ (by simp [Event.account]) (by simp)
    · exact hP _ (by simp [Event.account]) (by simp)

theorem uploadAccount_ends (w : World) (a : Account) (st : List Event) (P : Event → Prop)
    (hpoll : P (Event.canceled false))
    (hP : a.AccType = remote.ServiceWebDAV → Covers a P)
    (h : ∀ e ∈ st, P e) : EndsAll P (uploadAccount w st a) := by
  unfold uploadAccount
  simp only
  cases hc : w.canceled st with
  | true => exact poll_ends P _ h
  | false =>
    simp only [Bool.false_eq_true, if_false]
    split
    · exact next_ends P _ (all_snoc h hpoll)
    · next ht =>
      have hP := hP (not_not.1 ht)
      have h1 := all_snoc (all_snoc h hpoll)
        (hP (Event.fileShares a entity.FileShareNew) (by simp [Event.account]) (by simp))
      split
      · exact next_ends P _ (all_logError hP _ h1)
      · split
        · exact next_ends P _ h1
        · exact uploadFiles_rule w a [] _ _ (fun st2 file h2 => uploadFile_ends w a [] st2 file P hP h2) _ _
            (all_snoc h1 (hP _ (by simp [Event.account]) (by simp)))

theorem expireAccount_ends (w : World) (a : Account) (st : List Event) (P : Event → Prop)
    (hpoll : P (Event.canceled false))
    (hP : a.AccType = remote.ServiceWebDAV → Covers a P)
    (h : ∀ e ∈ st, P e) : EndsAll P (expireAccount w st a) := by
  unfold expireAccount
  simp only
  cases hc : w.canceled st with
  | true => exact poll_ends P _ h
  | false =>
    simp only [Bool.false_eq_true, if_false]
    split
    · exact next_ends P _ (all_snoc h hpoll)
    · next ht =>
      have hP := hP (not_not.1 ht)
      have h1 := all_snoc (all_snoc h hpoll)
        (hP (Event.expiredFileShares a) (by simp [Event.account]) (by simp))
      split
      · exact next_ends P _ (all_logError hP _ h1)
      · split
        · exact next_ends P _ h1
        · exact expireFiles_rule w a _ _ (fun st2 file h2 => expireFile_ends w a st2 file P hP h2) _ _
            (all_snoc h1 (hP _ (by simp [Event.account]) (by simp)))

/-! ## The whole run -/

theorem Start_ends (w : World) (P : Event → Prop) (hstart : P Event.mutexStart)
    (hsearch : P (Event.accountSearch true)) (hpoll : P (Event.canceled false))
    (hP : ∀ a, a.AccType = remote.ServiceWebDAV → Covers a P)
    (hgate : w.mutexStart = none) :
    (∃ pre, (Share.Start w).trace = pre ++ [Event.canceled true] ++ [Event.mutexStop] ∧
      (∀ e ∈ pre, P e) ∧ (Share.Start w).err = none) ∨
    (∃ pre, (Share.Start w).trace = pre ++ [Event.mutexStop] ∧ (∀ e ∈ pre, P e)) := by
  unfold Share.Start
  rw [hgate]
  simp only
  have h0 : ∀ e ∈ [Event.mutexStart] ++ [Event.accountSearch true], P e := by
    simp only [List.forall_mem_append, List.forall_mem_singleton]
    exact ⟨hstart, hsearch⟩
  have hu := uploadAccounts_rule w _ _ (w.accountSearch [Event.mutexStart] true).1
    (fun st a _ h => uploadAccount_ends w a st P hpoll (hP a) h) _ h0
  rcases huv : uploadAccounts w ([Event.mutexStart] ++ [Event.accountSearch true])
    (w.accountSearch [Event.mutexStart] true).1 with ⟨st1, c1⟩
  rw [huv] at hu
  cases c1 with
  | returnNil =>
    obtain ⟨pre, hpre, hall⟩ := hu.2 rfl
    dsimp only at hpre
    subst hpre
    exact Or.inl ⟨pre, rfl, hall, rfl⟩
  | next =>
    have h1 := hu.1 rfl
    have he := expireAccounts_rule w _ _ (w.accountSearch [Event.mutexStart] true).1
      (fun st a _ h => expireAccount_ends w a st P hpoll (hP a) h) _ h1
    dsimp only at he ⊢
    rcases hev : expireAccounts w st1 (w.accountSearch [Event.mutexStart] true).1
      with ⟨st2, c2⟩
    rw [hev] at he
    cases c2 with
    | returnNil =>
      obtain ⟨pre, hpre, hall⟩ := he.2 rfl
      dsimp only at hpre
      subst hpre
      exact Or.inl ⟨pre, rfl, hall, rfl⟩
    | next => exact Or.inr ⟨st2, rfl, he.1 rfl⟩

theorem Start_canceled (w : World)
    (hpoll : Event.canceled true ∈ (Share.Start w).trace) :
    (Share.Start w).err = none ∧
    ∃ pre, (Share.Start w).trace = pre ++ [Event.canceled true] ++ [Event.mutexStop] ∧
      Event.canceled true ∉ pre := by
  cases hgate : w.mutexStart with
  | some msg =>
    unfold Share.Start at hpoll
    rw [hgate] at hpoll
    simp at hpoll
  | none =>
    rcases Start_ends w (fun e => e ≠ Event.canceled true) (by simp) (by simp) (by simp)
      (fun a _ e _ he => he) hgate with ⟨pre, htr, hall, herr⟩ | ⟨pre, htr, hall⟩
    · exact ⟨herr, pre, htr, fun hmem => hall _ hmem rfl⟩
    · rw [htr] at hpoll
      simp only [List.mem_append, List.mem_singleton] at hpoll
      rcases hpoll with hmem | hmem
      · exact absurd rfl (hall _ hmem)
      · simp at hmem

theorem Start_onlyWebDAV (w : World) : OnlyWebDAV (Share.Start w).trace := by
  cases hgate : w.mutexStart with
  | some msg =>
    unfold Share.Start
    rw [hgate]
    intro e he
    simp only [List.mem_cons, List.mem_singleton, List.not_mem_nil, or_false] at he
    rcases he with rfl | rfl <;> simp [Event.account]
  | none =>
    have hcov : ∀ a, a.AccType = remote.ServiceWebDAV →
        Covers a (fun e => ∀ b, e.account = some b → b.AccType = remote.ServiceWebDAV) := by
      intro a ha e he _ b hb
      rcases he with he | he
      · rw [he] at hb
        simp at hb
      · rw [he] at hb
        cases hb
        exact ha
    rcases Start_ends w (fun e => ∀ b, e.account = some b → b.AccType = remote.ServiceWebDAV)
      (by simp [Event.account]) (by simp [Event.account]) (by simp [Event.account])
      hcov hgate with ⟨pre, htr, hall, _⟩ | ⟨pre, htr, hall⟩
    · rw [htr]
      intro e he
      simp only [List.mem_append, List.mem_singleton] at he
      rcases he with (he | rfl) | rfl
      · exact hall e he
      · simp [Event.account]
      · simp [Event.account]
    · rw [htr]
      intro e he
      simp only [List.mem_append, List.mem_singleton] at he
      rcases he with he | rfl
      · exact hall e he
      · simp [Event.account]

/-! ## Skipped records -/

theorem uploadFile_of_dir_failed (w : World) (a : Account) (dirs : List (String × String))
    (st : List Event) (file : FileShare) (hrun : w.canceled st = false)
    (hdir : (ensureDir w a dirs (st ++ [Event.canceled false]) file).2 = false) :
    uploadFile w a dirs st file =
      (file, (ensureDir w a dirs (st ++ [Event.canceled false]) file).1, Ctl.next) := by
  unfold uploadFile
  simp only [hrun, Bool.false_eq_true, if_false]
  rcases hd : ensureDir w a dirs (st ++ [Event.canceled false]) file with ⟨st2, ok⟩
  rw [hd] at hdir
  dsimp only at hdir
  subst hdir
  rfl

theorem uploadFile_of_source_failed (w : World) (a : Account) (dirs : List (String × String))
    (st : List Event) (file : FileShare) (hrun : w.canceled st = false)
    (hdir : (ensureDir w a dirs (st ++ [Event.canceled false]) file).2 = true)
    (hsrc : (sourceFile w a (ensureDir w a dirs (st ++ [Event.canceled false]) file).1 file).2
      = none) :
    uploadFile w a dirs st file =
      (file, (sourceFile w a (ensureDir w a dirs (st ++ [Event.canceled false]) file).1 file).1,
        Ctl.next) := by
  unfold uploadFile
  simp only [hrun, Bool.false_eq_true, if_false]
  rcases hd : ensureDir w a dirs (st ++ [Event.canceled false]) file with ⟨st2, ok⟩
  rw [hd] at hdir hsrc
  dsimp only at hdir hsrc ⊢
  subst hdir
  rcases hs : sourceFile w a st2 file with ⟨st3, src⟩
  rw [hs] at hsrc
  dsimp only at hsrc ⊢
  subst hsrc
  rw [hs]

theorem ensureDir_failed (w : World) (a : Account) (dirs : List (String × String))
    (st : List Event) (file : FileShare)
    (hmemo : dirs.lookup (w.filepathDir file.RemoteName) = none)
    (hdir : (w.createDir st a (w.filepathDir file.RemoteName)).isSome = true) :
    (ensureDir w a dirs st file).2 = false := by
  unfold ensureDir
  simp only [hmemo, Option.isNone_none, if_true]
  split
  · rfl
  · next h => simp [h] at hdir

theorem ensureDir_seg (w : World) (a : Account) (dirs : List (String × String))
    (st : List Event) (file : FileShare) :
    ∃ seg, (ensureDir w a dirs st file).1 = st ++ seg ∧
      ∀ e ∈ seg, e.isUploadOrSave = false := by
  unfold ensureDir
  simp only
  split
  · split
    · exact ⟨[Event.createDir a (w.filepathDir file.RemoteName),
        Event.logErrorf ("share: could not create folder " ++ w.filepathDir file.RemoteName)],
        by simp, by simp [Event.isUploadOrSave]⟩
    · exact ⟨[Event.createDir a (w.filepathDir file.RemoteName)], rfl,
        by simp [Event.isUploadOrSave]⟩
  · exact ⟨[], by simp, by simp⟩

theorem sourceFile_unknown_size (w : World) (a : Account) (st : List Event) (file : FileShare)
    (hsize : a.ShareSize ≠ "") (htype : w.thumbTypes a.ShareSize = none) :
    sourceFile w a st file =
      (st ++ [Event.logErrorf ("share: invalid size " ++ a.ShareSize)], none) := by
  unfold sourceFile
  simp only [hsize, ne_eq, not_false_eq_true, if_true, htype]

theorem sourceFile_thumb_failed (w : World) (a : Account) (st : List Event) (file : FileShare)
    (t : ThumbType) (name msg : String)
    (hsize : a.ShareSize ≠ "") (htype : w.thumbTypes a.ShareSize = some t)
    (hthumb : w.thumbFromFile st a (w.pathJoin w.originalsPath file.File.FileName)
      file.File.FileHash w.thumbPath t = (name, some msg)) :
    sourceFile w a st file =
      (st ++ [Event.fromFile a (w.pathJoin w.originalsPath file.File.FileName)
          file.File.FileHash w.thumbPath t] ++ [Event.logErrorf ("share: " ++ msg)], none) := by
  unfold sourceFile
  simp only [hsize, ne_eq, not_false_eq_true, if_true, htype, hthumb, Share.logError]

theorem uploadFiles_next (w : World) (a : Account) (dirs : List (String × String))
    (st : List Event) (file : FileShare) (files : List FileShare)
    (h : (uploadFile w a dirs st file).2.2 = Ctl.next) :
    uploadFiles w a dirs st (file :: files) =
      uploadFiles w a dirs (uploadFile w a dirs st file).2.1 files := by
  rw [uploadFiles_cons, if_neg (by simp [h])]

/-- C4: an iteration of the upload loop that is not canceled and in which
`client.CreateDir` fails, or the non-empty share size of the account is no
key of `thumb.Types`, or `thumb.FromFile` fails, leaves the record as it
was, appends neither an `Upload` nor a `Save` to the trace and falls through
to the next record: the loop goes on with the remaining records. -/
theorem silent_skip (w : World) (a : Account) (dirs : List (String × String))
    (st : List Event) (file : FileShare) (files : List FileShare)
    (hrun : w.canceled st = false)
    (hfail :
      (dirs.lookup (w.filepathDir file.RemoteName) = none ∧
        (w.createDir (st ++ [Event.canceled false]) a
          (w.filepathDir file.RemoteName)).isSome = true) ∨
      (a.ShareSize ≠ "" ∧ w.thumbTypes a.ShareSize = none) ∨
      (a.ShareSize ≠ "" ∧ ∃ t, w.thumbTypes a.ShareSize = some t ∧
        (w.thumbFromFile (ensureDir w a dirs (st ++ [Event.canceled false]) file).1 a
          (w.pathJoin w.originalsPath file.File.FileName) file.File.FileHash w.thumbPath
          t).2.isSome = true)) :
    (uploadFile w a dirs st file).1 = file ∧
    (uploadFile w a dirs st file).2.2 = Ctl.next ∧
    (∃ seg, (uploadFile w a dirs st file).2.1 = st ++ seg ∧
      ∀ e ∈ seg, e.isUploadOrSave = false) ∧
    uploadFiles w a dirs st (file :: files) =
      uploadFiles w a dirs (uploadFile w a dirs st file).2.1 files := by
  have key : (uploadFile w a dirs st file).1 = file ∧
      (uploadFile w a dirs st file).2.2 = Ctl.next ∧
      (∃ seg, (uploadFile w a dirs st file).2.1 = st ++ seg ∧
        ∀ e ∈ seg, e.isUploadOrSave = false) := by
    obtain ⟨segd, hsegd, hquietd⟩ := ensureDir_seg w a dirs (st ++ [Event.canceled false]) file
    cases hd : (ensureDir w a dirs (st ++ [Event.canceled false]) file).2 with
    | false =>
      rw [uploadFile_of_dir_failed w a dirs st file hrun hd]
      refine ⟨rfl, rfl, Event.canceled false :: segd, ?_, ?_⟩
      · simp [hsegd]
      · intro e he
        rcases List.mem_cons.1 he with rfl | he
        · rfl
        · exact hquietd e he
    | true =>
      have hsrc : ∃ segs, sourceFile w a
            (ensureDir w a dirs (st ++ [Event.canceled false]) file).1 file =
          ((ensureDir w a dirs (st ++ [Event.canceled false]) file).1 ++ segs, none) ∧
          ∀ e ∈ segs, e.isUploadOrSave = false := by
        rcases hfail with ⟨hmemo, hdir⟩ | ⟨hsize, htype⟩ | ⟨hsize, t, htype, hthumb⟩
        · rw [ensureDir_failed w a dirs _ file hmemo hdir] at hd
          cases hd
        · exact ⟨_, sourceFile_unknown_size w a _ file hsize htype,
            by simp [Event.isUploadOrSave]⟩
        · rcases hr : w.thumbFromFile (ensureDir w a dirs (st ++ [Event.canceled false]) file).1
            a (w.pathJoin w.originalsPath file.File.FileName) file.File.FileHash w.thumbPath t
            with ⟨name, err⟩
          rw [hr] at hthumb
          cases err with
          | none => simp at hthumb
          | some msg =>
            refine ⟨[Event.fromFile a (w.pathJoin w.originalsPath file.File.FileName)
              file.File.FileHash w.thumbPath t, Event.logErrorf ("share: " ++ msg)], ?_,
              by simp [Event.isUploadOrSave]⟩
            rw [sourceFile_thumb_failed w a _ file t name msg hsize htype hr]
            simp
      obtain ⟨segs, hsegs, hquiets⟩ := hsrc
      rw [uploadFile_of_source_failed w a dirs st file hrun hd (by rw [hsegs])]
      refine ⟨rfl, rfl, Event.canceled false :: (segd ++ segs), ?_, ?_⟩
      · rw [hsegs]
        dsimp only
        rw [hsegd]
        simp
      · intro e he
        rcases List.mem_cons.1 he with rfl | he
        · rfl
        · rcases List.mem_append.1 he with he | he
          · exact hquietd e he
          · exact hquiets e he
  exact ⟨key.1, key.2.1, key.2.2, uploadFiles_next w a dirs st file files key.2.1⟩

/-- The three skips on R1: the remote end refuses `CreateDir`; the share
size `poster` of the account is unknown; thumbnail derivation fails.  R1 is
left as it was each time and the loop goes on with R2. -/
theorem silent_skip_witness :
    ((uploadFile offline accountX [] [] shareR1).1 = shareR1 ∧
      (uploadFile offline accountX [] [] shareR1).2.2 = Ctl.next) ∧
    ((uploadFile calm accountW [] [] shareR1).1 = shareR1 ∧
      (uploadFile calm accountW [] [] shareR1).2.2 = Ctl.next) ∧
    ((uploadFile noThumbs accountY [] [] shareR1).1 = shareR1 ∧
      uploadFiles noThumbs accountY [] [] [shareR1, shareR2] =
        uploadFiles noThumbs accountY [] (uploadFile noThumbs accountY [] [] shareR1).2.1
          [shareR2]) :=
  ⟨⟨(silent_skip offline accountX [] [] shareR1 [shareR2] rfl (Or.inl ⟨rfl, rfl⟩)).1,
      (silent_skip offline accountX [] [] shareR1 [shareR2] rfl (Or.inl ⟨rfl, rfl⟩)).2.1⟩,
    ⟨(silent_skip calm accountW [] [] shareR1 [shareR2] rfl
        (Or.inr (Or.inl ⟨by decide, rfl⟩))).1,
      (silent_skip calm accountW [] [] shareR1 [shareR2] rfl
        (Or.inr (Or.inl ⟨by decide, rfl⟩))).2.1⟩,
    ⟨(silent_skip noThumbs accountY [] [] shareR1 [shareR2] rfl
        (Or.inr (Or.inr ⟨by decide, _, rfl, rfl⟩))).1,
      (silent_skip noThumbs accountY [] [] shareR1 [shareR2] rfl
        (Or.inr (Or.inr ⟨by decide, _, rfl, rfl⟩))).2.2.2⟩⟩

/-! ## A failed thumbnail derivation is not an upload failure -/

/-- C5, the claim as stated fails: thumbnail derivation fails for R1 under
account Y (share size `fit_720`, retry limit 0).  Treated as an upload
failure R1 would get `Errors = 1`, the message and status Error, and would
be saved; the iteration leaves R1 as it was and makes no `Upload` and no
`Save`. -/
theorem thumbnail_failure_is_not_counted :
    noThumbs.thumbTypes accountY.ShareSize =
      some { Width := 720, Height := 720, Options := [] } ∧
    recordUpload accountY shareR1 (some "thumbnail: file not found") =
      { shareR1 with Errors := 1, Error := "thumbnail: file not found", Status := "error" } ∧
    uploadFile noThumbs accountY [] [] shareR1 =
      (shareR1,
        [Event.canceled false,
          Event.createDir accountY "/shared/album1",
          Event.fromFile accountY "/originals/2020/a.jpg" "aaaa" "/cache/thumbs"
            { Width := 720, Height := 720, Options := [] },
          Event.logErrorf "share: thumbnail: file not found"],
        Ctl.next) ∧
    (uploadFile noThumbs accountY [] [] shareR1).1.Errors ≠ shareR1.Errors + 1 := by
  refine ⟨rfl, rfl, rfl, ?_⟩
  decide

/-- C5 (as amended): in an iteration of the upload loop that is not
canceled and has passed the directory step, for an account with a known,
non-empty share size, a failing `thumb.FromFile` is logged and the record is
skipped: its `Errors`, `Error` and `Status` stay as they were, the retry
limit is not applied, and nothing follows the log entry, no `Upload` and no
`Save`.  This is not what an upload failure with the same message does to
the record. -/
theorem thumbnail_failure_skips_record (w : World) (a : Account)
    (dirs : List (String × String)) (st : List Event) (file : FileShare) (t : ThumbType)
    (name msg : String)
    (hrun : w.canceled st = false)
    (hdir : (ensureDir w a dirs (st ++ [Event.canceled false]) file).2 = true)
    (hsize : a.ShareSize ≠ "") (htype : w.thumbTypes a.ShareSize = some t)
    (hthumb : w.thumbFromFile (ensureDir w a dirs (st ++ [Event.canceled false]) file).1 a
      (w.pathJoin w.originalsPath file.File.FileName) file.File.FileHash w.thumbPath t =
        (name, some msg)) :
    uploadFile w a dirs st file =
      (file,
        (ensureDir w a dirs (st ++ [Event.canceled false]) file).1 ++
          [Event.fromFile a (w.pathJoin w.originalsPath file.File.FileName)
            file.File.FileHash w.thumbPath t] ++
          [Event.logErrorf ("share: " ++ msg)],
        Ctl.next) ∧
    (uploadFile w a dirs st file).1 ≠ recordUpload a file (some msg) := by
  have hsrc := sourceFile_thumb_failed w a
    (ensureDir w a dirs (st ++ [Event.canceled false]) file).1 file t name msg hsize htype hthumb
  have hup := uploadFile_of_source_failed w a dirs st file hrun hdir (by rw [hsrc])
  rw [hsrc] at hup
  refine ⟨hup, ?_⟩
  rw [hup]
  intro h
  have herr := congrArg FileShare.Errors h
  rw [recordUpload_failed_errors] at herr
  dsimp only at herr
  omega

/-- Thumbnail derivation fails for R1 under account Y. -/
theorem thumbnail_failure_skips_record_witness :
    uploadFile noThumbs accountY [] [] shareR1 =
      (shareR1,
        (ensureDir noThumbs accountY [] ([] ++ [Event.canceled false]) shareR1).1 ++
          [Event.fromFile accountY
            (noThumbs.pathJoin noThumbs.originalsPath shareR1.File.FileName)
            shareR1.File.FileHash noThumbs.thumbPath
            { Width := 720, Height := 720, Options := [] }] ++
          [Event.logErrorf ("share: " ++ "thumbnail: file not found")],
        Ctl.next) ∧
    (uploadFile noThumbs accountY [] [] shareR1).1 ≠
      recordUpload accountY shareR1 (some "thumbnail: file not found") :=
  thumbnail_failure_skips_record noThumbs accountY [] [] shareR1
    { Width := 720, Height := 720, Options := [] } "" "thumbnail: file not found"
    rfl rfl (by decide) rfl rfl

/-! ## A failed delete -/

/-- C8: an iteration of the expiration loop that is not canceled and whose
`client.Delete` fails with message `msg` leaves the record with one more
error and the message stored, its status as it was, whatever the retry limit
of the account is; the record is saved in that state, and whatever the save
answers the loop goes on with the remaining records. -/
theorem delete_failure_is_counted (w : World) (a : Account) (st : List Event)
    (file : FileShare) (files : List FileShare) (msg : String)
    (hrun : w.canceled st = false)
    (hdelete : w.delete (st ++ [Event.canceled false]) a file.RemoteName = some msg) :
    expireFile w a st file =
      ({ file with Errors := file.Errors + 1, Error := msg },
        st ++ [Event.canceled false] ++ [Event.delete a file.RemoteName] ++
          [Event.save a { file with Errors := file.Errors + 1, Error := msg }] ++
          Share.logError (w.save (st ++ [Event.canceled false] ++
            [Event.delete a file.RemoteName]) a
            { file with Errors := file.Errors + 1, Error := msg }),
        Ctl.next) ∧
    (expireFile w a st file).1.Status = file.Status ∧
    expireFiles w a st (file :: files) =
      expireFiles w a (expireFile w a st file).2.1 files := by
  have h : expireFile w a st file =
      ({ file with Errors := file.Errors + 1, Error := msg },
        st ++ [Event.canceled false] ++ [Event.delete a file.RemoteName] ++
          [Event.save a { file with Errors := file.Errors + 1, Error := msg }] ++
          Share.logError (w.save (st ++ [Event.canceled false] ++
            [Event.delete a file.RemoteName]) a
            { file with Errors := file.Errors + 1, Error := msg }),
        Ctl.next) := by
    unfold expireFile
    simp only [hrun, hdelete, recordDelete, deleteLog, Bool.false_eq_true, if_false,
      List.append_nil]
  refine ⟨h, by rw [h], ?_⟩
  rw [expireFiles_cons, if_neg (by rw [h]; simp)]

/-- The remote end refuses the delete of R3 (status Shared, three errors)
under account Y, whose retry limit 0 the fourth error exceeds, and the
database refuses the save: R3 stays Shared with four errors and the loop
goes on with R4. -/
theorem delete_failure_is_counted_witness :
    expireFile offline accountY [] shareR3 =
      ({ shareR3 with Errors := shareR3.Errors + 1, Error := "connection refused" },
        [] ++ [Event.canceled false] ++ [Event.delete accountY shareR3.RemoteName] ++
          [Event.save accountY
            { shareR3 with Errors := shareR3.Errors + 1, Error := "connection refused" }] ++
          Share.logError (offline.save ([] ++ [Event.canceled false] ++
            [Event.delete accountY shareR3.RemoteName]) accountY
            { shareR3 with Errors := shareR3.Errors + 1, Error := "connection refused" }),
        Ctl.next) ∧
    (expireFile offline accountY [] shareR3).1.Status = shareR3.Status ∧
    expireFiles offline accountY [] [shareR3, shareR4] =
      expireFiles offline accountY (expireFile offline accountY [] shareR3).2.1 [shareR4] :=
  delete_failure_is_counted offline accountY [] shareR3 [shareR4] "connection refused" rfl rfl

/-! ## Passes over a stored record -/

theorem storedAfter_append (w : World) (x y : List Event) (hist : List Event)
    (s : FileShare) :
    storedAfter w hist (x ++ y) s = storedAfter w (hist ++ x) y (storedAfter w hist x s) := by
  induction x generalizing hist s with
  | nil => simp [storedAfter]
  | cons e x ih =>
    rw [List.cons_append, storedAfter, storedAfter, ih]
    simp

theorem storedAfter_saveFree (w : World) (x : List Event) (hist : List Event)
    (s : FileShare) (h : ∀ e ∈ x, e.isSave = false) : storedAfter w hist x s = s := by
  induction x generalizing hist with
  | nil => rfl
  | cons e x ih =>
    have he := h e (List.mem_cons_self e x)
    have hx : ∀ e2 ∈ x, e2.isSave = false := fun e2 h2 => h e2 (List.mem_cons_of_mem e h2)
    rw [storedAfter]
    cases e with
    | save a f => simp [Event.isSave] at he
    | _ => exact ih _ hx

theorem storedAfter_saved (w : World) (x y : List Event) (a : Account) (file s : FileShare)
    (hx : ∀ e ∈ x, e.isSave = false) (hy : ∀ e ∈ y, e.isSave = false)
    (hsave : w.save x a file = none) :
    storedAfter w [] (x ++ [Event.save a file] ++ y) s = file := by
  rw [storedAfter_append, storedAfter_append, storedAfter_saveFree w y _ _ hy,
    storedAfter_saveFree w x _ _ hx]
  simp [storedAfter, storedAfterCall, hsave]

theorem saveFree_snoc {st : List Event} {e : Event} (h : ∀ x ∈ st, x.isSave = false)
    (he : e.isSave = false) : ∀ x ∈ st ++ [e], x.isSave = false := by
  simp only [List.forall_mem_append, List.forall_mem_singleton]
  exact ⟨h, he⟩

theorem ensureDir_created (w : World) (a : Account) (st : List Event) (file : FileShare)
    (hdir : ∀ hist dir, w.createDir hist a dir = none) :
    ensureDir w a [] st file =
      (st ++ [Event.createDir a (w.filepathDir file.RemoteName)], true) := by
  unfold ensureDir
  simp [hdir]

theorem sourceFile_found (w : World) (a : Account) (st : List Event) (file : FileShare)
    (hsrc : a.ShareSize = "" ∨ ∃ t, w.thumbTypes a.ShareSize = some t ∧
      ∀ hist src hash, (w.thumbFromFile hist a src hash w.thumbPath t).2 = none) :
    ∃ e src, e.isSave = false ∧ e.isCall = true ∧
      (sourceFile w a st file = (st, some src) ∨
        sourceFile w a st file = (st ++ [e], some src)) := by
  unfold sourceFile
  by_cases hsize : a.ShareSize = ""
  · exact ⟨Event.mutexStart, w.pathJoin w.originalsPath file.File.FileName, rfl, rfl,
      Or.inl (by simp [hsize])⟩
  · rcases hsrc with hsrc | ⟨t, ht, hthumb⟩
    · exact absurd hsrc hsize
    · exact ⟨Event.fromFile a (w.pathJoin w.originalsPath file.File.FileName)
        file.File.FileHash w.thumbPath t,
        (w.thumbFromFile st a (w.pathJoin w.originalsPath file.File.FileName)
          file.File.FileHash w.thumbPath t).1, rfl, rfl,
        Or.inr (by simp [hsize, ht, hthumb])⟩

theorem uploadAndSave_failed (w : World) (a : Account) (st : List Event) (file : FileShare)
    (src : String)
    (hcancel : ∀ hist, (∀ e ∈ hist, e.isSave = false) → w.canceled hist = false)
    (hupload : ∀ hist src dst, (w.upload hist a src dst).isSome = true)
    (hsave : ∀ hist file, w.save hist a file = none)
    (hst : ∀ e ∈ st, e.isSave = false) :
    ∃ seg msg, (∀ e ∈ seg, e.isSave = false) ∧
      uploadAndSave w a st file src =
        (recordUpload a file (some msg),
          st ++ seg ++ [Event.save a (recordUpload a file (some msg))], Ctl.next) := by
  obtain ⟨msg, hmsg⟩ := Option.isSome_iff_exists.1 (hupload st src file.RemoteName)
  have hfree : ∀ e ∈ st ++ [Event.upload a src file.RemoteName] ++
      [Event.logErrorf ("share: " ++ msg)], e.isSave = false :=
    saveFree_snoc (saveFree_snoc hst rfl) rfl
  refine ⟨[Event.upload a src file.RemoteName, Event.logErrorf ("share: " ++ msg),
    Event.canceled false], msg, by simp [Event.isSave], ?_⟩
  unfold uploadAndSave
  simp only [hmsg, uploadLog, Share.logError, hcancel _ hfree, hsave, Bool.false_eq_true,
    if_false, List.append_nil]
  simp

theorem uploadFile_failed (w : World) (a : Account) (st : List Event) (file : FileShare)
    (hcancel : ∀ hist, (∀ e ∈ hist, e.isSave = false) → w.canceled hist = false)
    (hdir : ∀ hist dir, w.createDir hist a dir = none)
    (hsrc : a.ShareSize = "" ∨ ∃ t, w.thumbTypes a.ShareSize = some t ∧
      ∀ hist src hash, (w.thumbFromFile hist a src hash w.thumbPath t).2 = none)
    (hupload : ∀ hist src dst, (w.upload hist a src dst).isSome = true)
    (hsave : ∀ hist file, w.save hist a file = none)
    (hst : ∀ e ∈ st, e.isSave = false) :
    ∃ seg msg, (∀ e ∈ seg, e.isSave = false) ∧
      uploadFile w a [] st file =
        (recordUpload a file (some msg),
          st ++ seg ++ [Event.save a (recordUpload a file (some msg))], Ctl.next) := by
  have h1 : ∀ e ∈ st ++ [Event.canceled false] ++
      [Event.createDir a (w.filepathDir file.RemoteName)], e.isSave = false :=
    saveFree_snoc (saveFree_snoc hst rfl) rfl
  obtain ⟨e, src, he, _, hs⟩ := sourceFile_found w a (st ++ [Event.canceled false] ++
    [Event.createDir a (w.filepathDir file.RemoteName)]) file hsrc
  unfold uploadFile
  simp only [hcancel st hst, Bool.false_eq_true, if_false, ensureDir_created w a _ file hdir]
  rcases hs with hs | hs
  · rw [hs]
    obtain ⟨seg, msg, hseg, hup⟩ := uploadAndSave_failed w a _ file src hcancel hupload hsave h1
    refine ⟨[Event.canceled false, Event.createDir a (w.filepathDir file.RemoteName)] ++ seg,
      msg, ?_, ?_⟩
    · intro x hx
      rcases List.mem_append.1 hx with hx | hx
      · simp only [List.mem_cons, List.mem_singleton, List.not_mem_nil, or_false] at hx
        rcases hx with rfl | rfl <;> rfl
      · exact hseg x hx
    · dsimp only
      rw [hup]
      simp
  · rw [hs]
    obtain ⟨seg, msg, hseg, hup⟩ := uploadAndSave_failed w a _ file src hcancel hupload hsave
      (saveFree_snoc h1 he)
    refine ⟨[Event.canceled false, Event.createDir a (w.filepathDir file.RemoteName), e] ++ seg,
      msg, ?_, ?_⟩
    · intro x hx
      rcases List.mem_append.1 hx with hx | hx
      · simp only [List.mem_cons, List.mem_singleton, List.not_mem_nil, or_false] at hx
        rcases hx with rfl | rfl | rfl
        · rfl
        · rfl
        · exact he
      · exact hseg x hx
    · dsimp only
      rw [hup]
      simp

theorem Start_trace (w : World) (hgate : w.mutexStart = none) :
    (Share.Start w).trace =
      (if (uploadAccounts w ([Event.mutexStart] ++ [Event.accountSearch true])
            (w.accountSearch [Event.mutexStart] true).1).2 = Ctl.returnNil then
          (uploadAccounts w ([Event.mutexStart] ++ [Event.accountSearch true])
            (w.accountSearch [Event.mutexStart] true).1).1
        else
          (expireAccounts w
            (uploadAccounts w ([Event.mutexStart] ++ [Event.accountSearch true])
              (w.accountSearch [Event.mutexStart] true).1).1
            (w.accountSearch [Event.mutexStart] true).1).1) ++ [Event.mutexStop] := by
  unfold Share.Start
  rw [hgate]
  dsimp only
  rcases uploadAccounts w ([Event.mutexStart] ++ [Event.accountSearch true])
    (w.accountSearch [Event.mutexStart] true).1 with ⟨st1, c1⟩
  cases c1 with
  | returnNil => simp
  | next =>
    dsimp only
    rcases expireAccounts w st1 (w.accountSearch [Event.mutexStart] true).1 with ⟨st2, c2⟩
    cases c2 <;> simp

theorem expireAccounts_withStored (w : World) (a : Account) (s : FileShare)
    (st : List Event) :
    ∃ seg, (∀ e ∈ seg, e.isSave = false) ∧
      (expireAccounts (w.withStored a s) st [a]).1 = st ++ seg := by
  rw [expireAccounts_cons]
  unfold expireAccount
  simp only [World.withStored, List.length_nil, if_true]
  cases w.canceled st with
  | true => exact ⟨[Event.canceled true], by simp [Event.isSave], by simp⟩
  | false =>
    by_cases ht : a.AccType = remote.ServiceWebDAV
    · exact ⟨[Event.canceled false, Event.expiredFileShares a], by simp [Event.isSave],
        by simp [ht, expireAccounts]⟩
    · exact ⟨[Event.canceled false], by simp [Event.isSave], by simp [ht, expireAccounts]⟩

theorem uploadAccounts_failed (w : World) (a : Account) (s : FileShare) (st : List Event)
    (h : FailedAndSaved w a) (hnew : s.Status = entity.FileShareNew)
    (hst : ∀ e ∈ st, e.isSave = false) :
    ∃ seg msg, (∀ e ∈ seg, e.isSave = false) ∧
      uploadAccounts (w.withStored a s) st [a] =
        (st ++ seg ++ [Event.save a (recordUpload a s (some msg))], Ctl.next) := by
  obtain ⟨_, htype, hcancel, hdir, hsrc, hupload, hsave⟩ := h
  have h3 : ∀ e ∈ st ++ [Event.canceled false] ++ [Event.fileShares a entity.FileShareNew] ++
      [Event.webdavNew a], e.isSave = false :=
    saveFree_snoc (saveFree_snoc (saveFree_snoc hst rfl) rfl) rfl
  obtain ⟨seg, msg, hseg, hup⟩ := uploadFile_failed (w.withStored a s) a _ s hcancel hdir hsrc
    hupload hsave h3
  refine ⟨[Event.canceled false, Event.fileShares a entity.FileShareNew, Event.webdavNew a]
    ++ seg, msg, ?_, ?_⟩
  · intro x hx
    rcases List.mem_append.1 hx with hx | hx
    · simp only [List.mem_cons, List.mem_singleton, List.not_mem_nil, or_false] at hx
      rcases hx with rfl | rfl | rfl <;> rfl
    · exact hseg x hx
  · have hacc : uploadAccount (w.withStored a s) st a =
        uploadFiles (w.withStored a s) a [] (st ++ [Event.canceled false] ++
          [Event.fileShares a entity.FileShareNew] ++ [Event.webdavNew a]) [s] := by
      unfold uploadAccount
      have hc : (w.withStored a s).canceled st = false := hcancel st hst
      simp only [hc, Bool.false_eq_true, if_false, htype, ne_eq, not_true_eq_false]
      simp [World.withStored, hnew]
    rw [uploadAccounts_cons, hacc, uploadFiles_cons, hup]
    simp [uploadFiles, uploadAccounts]

theorem pass_failed (w : World) (a : Account) (s : FileShare)
    (h : FailedAndSaved w a) (hnew : s.Status = entity.FileShareNew) :
    ∃ msg, pass w a s = recordUpload a s (some msg) := by
  obtain ⟨seg, msg, hseg, hup⟩ := uploadAccounts_failed w a s
    ([Event.mutexStart] ++ [Event.accountSearch true]) h hnew (by simp [Event.isSave])
  obtain ⟨seg2, hseg2, hex⟩ := expireAccounts_withStored w a s
    ([Event.mutexStart] ++ [Event.accountSearch true] ++ seg ++
      [Event.save a (recordUpload a s (some msg))])
  refine ⟨msg, ?_⟩
  unfold pass
  rw [Start_trace (w.withStored a s) h.1]
  have hacc : (w.withStored a s).accountSearch [Event.mutexStart] true = ([a], none) := rfl
  rw [hacc]
  dsimp only
  rw [hup]
  dsimp only
  rw [if_neg (by simp), hex]
  have : [Event.mutexStart] ++ [Event.accountSearch true] ++ seg ++
      [Event.save a (recordUpload a s (some msg))] ++ seg2 ++ [Event.mutexStop] =
      ([Event.mutexStart] ++ [Event.accountSearch true] ++ seg) ++
      [Event.save a (recordUpload a s (some msg))] ++ (seg2 ++ [Event.mutexStop]) := by
    simp
  rw [this]
  apply storedAfter_saved
  · intro x hx
    rcases List.mem_append.1 hx with hx | hx
    · simp only [List.mem_append, List.mem_singleton] at hx
      rcases hx with rfl | rfl <;> rfl
    · exact hseg x hx
  · intro x hx
    rcases List.mem_append.1 hx with hx | hx
    · exact hseg2 x hx
    · rw [List.mem_singleton] at hx
      subst hx
      rfl
  · exact h.2.2.2.2.2.2 _ _

theorem savesOnly_append_free {Q : FileShare → Prop} {st seg : List Event}
    (h : SavesOnly Q st) (hseg : ∀ e ∈ seg, e.isSave = false) : SavesOnly Q (st ++ seg) := by
  intro b f hmem
  rcases List.mem_append.1 hmem with hmem | hmem
  · exact h b f hmem
  · have := hseg _ hmem
    simp [Event.isSave] at this

theorem savesOnly_snoc_free {Q : FileShare → Prop} {st : List Event} (e : Event)
    (he : e.isSave = false) (h : SavesOnly Q st) : SavesOnly Q (st ++ [e]) :=
  savesOnly_append_free h (by
    intro x hx
    rw [List.mem_singleton] at hx
    subst hx
    exact he)

theorem savesOnly_snoc_save {Q : FileShare → Prop} {st : List Event} (b : Account)
    (f : FileShare) (hf : Q f) (h : SavesOnly Q st) :
    SavesOnly Q (st ++ [Event.save b f]) := by
  intro b2 f2 hmem
  rcases List.mem_append.1 hmem with hmem | hmem
  · exact h b2 f2 hmem
  · rw [List.mem_singleton] at hmem
    cases hmem
    exact hf

theorem logError_saveFree (err : Option String) :
    ∀ e ∈ Share.logError err, e.isSave = false := by
  cases err <;> simp [Share.logError, Event.isSave]

theorem uploadLog_saveFree (a : Account) (file : FileShare) (err : Option String) :
    ∀ e ∈ uploadLog a file err, e.isSave = false := by
  cases err <;> simp [uploadLog, Share.logError, Event.isSave]

theorem isSave_of_isUploadOrSave {e : Event} (h : e.isUploadOrSave = false) :
    e.isSave = false := by
  cases e <;> simp_all [Event.isSave, Event.isUploadOrSave]

theorem sourceFile_seg (w : World) (a : Account) (st : List Event) (file : FileShare) :
    ∃ seg, (sourceFile w a st file).1 = st ++ seg ∧
      ∀ e ∈ seg, e.isUploadOrSave = false ∧ e.isCall = true := by
  unfold sourceFile
  simp only
  split
  · split
    · exact ⟨[Event.logErrorf ("share: invalid size " ++ a.ShareSize)], rfl,
        by simp [Event.isUploadOrSave, Event.isCall]⟩
    · split
      · next t _ _ msg _ =>
        exact ⟨[Event.fromFile a (w.pathJoin w.originalsPath file.File.FileName)
          file.File.FileHash w.thumbPath t, Event.logErrorf ("share: " ++ msg)],
          by simp [Share.logError], by simp [Event.isUploadOrSave, Event.isCall]⟩
      · next t _ _ _ =>
        exact ⟨[Event.fromFile a (w.pathJoin w.originalsPath file.File.FileName)
          file.File.FileHash w.thumbPath t], rfl, by simp [Event.isUploadOrSave, Event.isCall]⟩
  · exact ⟨[], by simp, by simp⟩

theorem uploadAndSave_saves (w : World) (a : Account) (st : List Event) (file : FileShare)
    (src : String) (Q : FileShare → Prop) (hQ : ∀ r, Q (recordUpload a file r))
    (h : SavesOnly Q st) : SavesOnly Q (uploadAndSave w a st file src).2.1 := by
  unfold uploadAndSave
  simp only
  have h1 := savesOnly_append_free (savesOnly_snoc_free (Event.upload a src file.RemoteName)
    rfl h) (uploadLog_saveFree a file (w.upload st a src file.RemoteName))
  generalize st ++ [Event.upload a src file.RemoteName] ++
    uploadLog a file (w.upload st a src file.RemoteName) = st1 at h1
  cases w.canceled st1 with
  | true => exact savesOnly_snoc_free _ rfl h1
  | false =>
    exact savesOnly_append_free (savesOnly_snoc_save a _ (hQ _)
      (savesOnly_snoc_free _ rfl h1)) (logError_saveFree _)

theorem uploadFile_saves (w : World) (a : Account) (dirs : List (String × String))
    (st : List Event) (file : FileShare) (Q : FileShare → Prop)
    (hQ : ∀ r, Q (recordUpload a file r))
    (h : SavesOnly Q st) : SavesOnly Q (uploadFile w a dirs st file).2.1 := by
  unfold uploadFile
  simp only
  cases hc : w.canceled st with
  | true => exact savesOnly_snoc_free _ rfl h
  | false =>
    simp only [Bool.false_eq_true, if_false]
    obtain ⟨segd, hsegd, hfreed⟩ := ensureDir_seg w a dirs (st ++ [Event.canceled false]) file
    have h2 : SavesOnly Q (ensureDir w a dirs (st ++ [Event.canceled false]) file).1 := by
      rw [hsegd]
      exact savesOnly_append_free (savesOnly_snoc_free _ rfl h)
        (fun e he => isSave_of_isUploadOrSave (hfreed e he))
    split
    · next st2 heq =>
      rw [heq] at h2
      exact h2
    · next st2 heq =>
      rw [heq] at h2
      obtain ⟨segs, hsegs, hfrees⟩ := sourceFile_seg w a st2 file
      have h3 : SavesOnly Q (sourceFile w a st2 file).1 := by
        rw [hsegs]
        exact savesOnly_append_free h2 (fun e he => isSave_of_isUploadOrSave (hfrees e he).1)
      split
      · next st3 heq3 =>
        rw [heq3] at h3
        exact h3
      · next st3 src heq3 =>
        rw [heq3] at h3
        exact uploadAndSave_saves w a st3 file src Q hQ h3

theorem uploadFiles_single (w : World) (a : Account) (dirs : List (String × String))
    (st : List Event) (file : FileShare) :
    (uploadFiles w a dirs st [file]).1 = (uploadFile w a dirs st file).2.1 := by
  rw [uploadFiles_cons]
  split <;> simp [uploadFiles]

theorem uploadAccounts_single (w : World) (st : List Event) (a : Account) :
    (uploadAccounts w st [a]).1 = (uploadAccount w st a).1 := by
  rw [uploadAccounts_cons]
  split <;> simp [uploadAccounts]

theorem uploadAccounts_withStored_saves (w : World) (a : Account) (s : FileShare)
    (st : List Event) (Q : FileShare → Prop) (hQ : ∀ r, Q (recordUpload a s r))
    (h : SavesOnly Q st) : SavesOnly Q (uploadAccounts (w.withStored a s) st [a]).1 := by
  rw [uploadAccounts_single]
  unfold uploadAccount
  simp only
  cases (w.withStored a s).canceled st with
  | true => exact savesOnly_snoc_free _ rfl h
  | false =>
    simp only [Bool.false_eq_true, if_false]
    have h0 := savesOnly_snoc_free (Event.canceled false) rfl h
    split
    · exact h0
    · have h1 := savesOnly_snoc_free (Event.fileShares a entity.FileShareNew) rfl h0
      have hq : (w.withStored a s).fileShares (st ++ [Event.canceled false]) a.ID
          entity.FileShareNew =
          (if s.Status = entity.FileShareNew then [s] else [], none) := rfl
      rw [hq]
      dsimp only
      by_cases hs : s.Status = entity.FileShareNew
      · simp only [hs, if_true, List.length_singleton, one_ne_zero, if_false]
        rw [uploadFiles_single]
        exact uploadFile_saves _ a [] _ s Q hQ (savesOnly_snoc_free _ rfl h1)
      · simp only [hs, if_false, List.length_nil, if_true]
        exact h1

theorem storedAfter_inv (w : World) (Q : FileShare → Prop) (tr hist : List Event)
    (s : FileShare) (h : SavesOnly Q tr) (hs : Q s) : Q (storedAfter w hist tr s) := by
  induction tr generalizing hist s with
  | nil => exact hs
  | cons e tr ih =>
    rw [storedAfter]
    apply ih
    · exact fun b f hmem => h b f (List.mem_cons_of_mem e hmem)
    · cases e with
      | save b f =>
        simp only [storedAfterCall]
        split
        · exact h b f (List.mem_cons_self _ _)
        · exact hs
      | _ => exact hs

theorem pass_inv (w : World) (a : Account) (s : FileShare) (Q : FileShare → Prop)
    (hQ : ∀ r, Q (recordUpload a s r)) (hs : Q s) : Q (pass w a s) := by
  unfold pass
  apply storedAfter_inv _ Q _ _ _ _ hs
  cases hgate : w.mutexStart with
  | some msg =>
    have : (Share.Start (w.withStored a s)).trace =
        [Event.mutexStart, Event.eventError ("share: " ++ msg)] := by
      unfold Share.Start
      have hg : (w.withStored a s).mutexStart = some msg := hgate
      rw [hg]
    rw [this]
    intro b f hmem
    simp at hmem
  | none =>
    rw [Start_trace (w.withStored a s) hgate]
    have hacc : (w.withStored a s).accountSearch [Event.mutexStart] true = ([a], none) := rfl
    rw [hacc]
    dsimp only
    have hup := uploadAccounts_withStored_saves w a s
      ([Event.mutexStart] ++ [Event.accountSearch true]) Q hQ
      (by intro b f hmem; simp at hmem)
    refine savesOnly_snoc_free Event.mutexStop rfl ?_
    split
    · exact hup
    · obtain ⟨seg2, hseg2, hex⟩ := expireAccounts_withStored w a s
        (uploadAccounts (w.withStored a s) ([Event.mutexStart] ++ [Event.accountSearch true])
          [a]).1
      rw [hex]
      exact savesOnly_append_free hup hseg2

theorem recordUpload_status_negative (a : Account) (file : FileShare) (r : Option String)
    (hneg : a.RetryLimit < 0) (h : file.Status ≠ entity.FileShareError) :
    (recordUpload a file r).Status ≠ entity.FileShareError := by
  simp only [recordUpload, ge_iff_le, gt_iff_lt]
  rw [if_neg (by omega)]
  cases r with
  | none =>
    show entity.FileShareShared ≠ entity.FileShareError
    decide
  | some msg => exact h

theorem passes_cons (a : Account) (w : World) (ws : List World) (s : FileShare) :
    passes a (w :: ws) s = passes a ws (pass w a s) := rfl

theorem passes_snoc (a : Account) (w : World) (ws : List World) (s : FileShare) :
    passes a (ws ++ [w]) s = pass w a (passes a ws s) := by
  simp [passes, List.foldl_append]

theorem passes_status_negative (a : Account) (ws : List World) (s : FileShare)
    (hneg : a.RetryLimit < 0) (h : s.Status ≠ entity.FileShareError) :
    (passes a ws s).Status ≠ entity.FileShareError := by
  induction ws generalizing s with
  | nil => exact h
  | cons w ws ih =>
    rw [passes_cons]
    exact ih _ (pass_inv w a s (fun f => f.Status ≠ entity.FileShareError)
      (fun r => recordUpload_status_negative a s r hneg h) h)

theorem passes_failed_within (a : Account) (ws : List World) (s : FileShare)
    (hfail : ∀ w ∈ ws, FailedAndSaved w a) (hnew : s.Status = entity.FileShareNew)
    (hle : a.RetryLimit < 0 ∨ s.Errors + ws.length ≤ a.RetryLimit) :
    (passes a ws s).Errors = s.Errors + ws.length ∧
    (passes a ws s).Status = entity.FileShareNew := by
  induction ws generalizing s with
  | nil => simpa [passes] using hnew
  | cons w ws ih =>
    simp only [List.length_cons, Nat.cast_add, Nat.cast_one] at hle ⊢
    obtain ⟨msg, hpass⟩ := pass_failed w a s (hfail w (List.mem_cons_self w ws)) hnew
    have herr : (pass w a s).Errors = s.Errors + 1 := by
      rw [hpass, recordUpload_failed_errors]
    have hstat : (pass w a s).Status = entity.FileShareNew := by
      rw [hpass, recordUpload_failed_status, if_neg (by omega), hnew]
    rw [passes_cons]
    have := ih (pass w a s) (fun v hv => hfail v (List.mem_cons_of_mem w hv)) hstat
      (by rw [herr]; omega)
    rw [herr] at this
    exact ⟨by rw [this.1]; ring, this.2⟩

/-- C1 (as amended): a New record with `Errors = 0` under an account with
retry limit `R`, and `k` passes of `Share.Start` in a row in each of which
the upload of the record is attempted and fails and the record is saved (the
run is not canceled before the save and the save succeeds).  If `0 ≤ R` and
`k ≤ R` the stored record has `Errors = k` and is still New; if `0 ≤ R` and
`k = R + 1` it has `Errors = R + 1` and status Error; if `R < 0` it has
`Errors = k` and is still New.  If `R < 0`, no passes whatever, canceled or
not, saved or not, leave the stored record in status Error. -/
theorem retry_limit_policy (a : Account) (file : FileShare) (ws : List World)
    (hnew : file.Status = entity.FileShareNew) (hzero : file.Errors = 0)
    (hfail : ∀ w ∈ ws, FailedAndSaved w a) :
    (0 ≤ a.RetryLimit → (ws.length : Int) ≤ a.RetryLimit →
      (passes a ws file).Errors = ws.length ∧
      (passes a ws file).Status = entity.FileShareNew) ∧
    (0 ≤ a.RetryLimit → (ws.length : Int) = a.RetryLimit + 1 →
      (passes a ws file).Errors = a.RetryLimit + 1 ∧
      (passes a ws file).Status = entity.FileShareError) ∧
    (a.RetryLimit < 0 →
      (passes a ws file).Errors = ws.length ∧
      (passes a ws file).Status = entity.FileShareNew) ∧
    (a.RetryLimit < 0 → ∀ vs : List World,
      (passes a vs file).Status ≠ entity.FileShareError) := by
  refine ⟨fun _ hk => ?_, fun hR hk => ?_, fun hneg => ?_, fun hneg vs => ?_⟩
  · have := passes_failed_within a ws file hfail hnew (Or.inr (by omega))
    rw [hzero, zero_add] at this
    exact this
  · induction ws using List.reverseRecOn with
    | nil => simp at hk; omega
    | append_singleton ws w _ =>
      simp only [List.length_append, List.length_singleton, Nat.cast_add, Nat.cast_one] at hk
      have hinit := passes_failed_within a ws file
        (fun v hv => hfail v (List.mem_append_left _ hv)) hnew (Or.inr (by omega))
      obtain ⟨msg, hpass⟩ := pass_failed w a (passes a ws file)
        (hfail w (List.mem_append_right _ (List.mem_singleton_self w))) hinit.2
      rw [passes_snoc, hpass, recordUpload_failed_errors, recordUpload_failed_status,
        hinit.1, if_pos ⟨hR, by omega⟩]
      exact ⟨by omega, rfl⟩
  · have := passes_failed_within a ws file hfail hnew (Or.inl hneg)
    rw [hzero, zero_add] at this
    exact this
  · exact passes_status_negative a vs file hneg (by rw [hnew]; decide)


theorem uploadDown_failedAndSaved (a : Account) (htype : a.AccType = remote.ServiceWebDAV)
    (hsize : a.ShareSize = "" ∨ a.ShareSize = "fit_720") : FailedAndSaved uploadDown a := by
  refine ⟨rfl, htype, fun _ _ => rfl, fun _ _ => rfl, ?_, fun _ _ _ => rfl, fun _ _ => rfl⟩
  rcases hsize with h | h
  · exact Or.inl h
  · exact Or.inr ⟨{ Width := 720, Height := 720, Options := [] }, by rw [h]; rfl,
      fun _ _ _ => rfl⟩

/-- C1, the claim as stated fails: account X has retry limit 1 and R1 is New
with no errors.  In the first pass the upload of R1 fails and the request to
cancel arrives while it is in flight, so the run returns at the poll before
the save and nothing is stored; in the second pass the upload fails again
and the record is saved.  After these two failed uploads in a row the stored
record has `Errors = 1` and is New, not `Errors = 2` and Error.  The same
holds when the save of the first pass fails. -/
theorem retry_limit_needs_the_save :
    accountX.RetryLimit + 1 = 2 ∧
    (Share.Start ((uploadDown.cancelAt 8).withStored accountX shareR1)).trace =
      [Event.mutexStart,
        Event.accountSearch true,
        Event.canceled false,
        Event.fileShares accountX "new",
        Event.webdavNew accountX,
        Event.canceled false,
        Event.createDir accountX "/shared/album1",
        Event.upload accountX "/originals/2020/a.jpg" "/shared/album1/a.jpg",
        Event.logErrorf "share: timeout",
        Event.canceled true,
        Event.mutexStop] ∧
    pass (uploadDown.cancelAt 8) accountX shareR1 = shareR1 ∧
    passes accountX [uploadDown.cancelAt 8, uploadDown] shareR1 =
      { shareR1 with Errors := 1, Error := "timeout" } ∧
    (passes accountX [uploadDown.cancelAt 8, uploadDown] shareR1).Status ≠
      entity.FileShareError ∧
    passes accountX [uploadAndDatabaseDown, uploadDown] shareR1 =
      { shareR1 with Errors := 1, Error := "timeout" } := by
  refine ⟨by decide, by decide, by decide, by decide, by decide, by decide⟩

/-- Scenario B and scenario A of the specification, with saved passes: under
account Y (retry limit 0) one failed upload of R1 leaves `Errors = 1` and
status Error; under account X (retry limit 1) it leaves `Errors = 1` and R1
New, and the second failed upload in a row leaves status Error. -/
theorem retry_limit_policy_witness :
    (passes accountY [uploadDown] shareR1).Errors = 1 ∧
    (passes accountY [uploadDown] shareR1).Status = entity.FileShareError ∧
    (passes accountX [uploadDown] shareR1).Errors = 1 ∧
    (passes accountX [uploadDown] shareR1).Status = entity.FileShareNew ∧
    (passes accountX [uploadDown, uploadDown] shareR1).Status = entity.FileShareError :=
  ⟨((retry_limit_policy accountY shareR1 [uploadDown] rfl rfl
      (fun _ hw => List.mem_singleton.1 hw ▸
        uploadDown_failedAndSaved accountY rfl (Or.inr rfl))).2.1
      (by decide) (by decide)).1,
    ((retry_limit_policy accountY shareR1 [uploadDown] rfl rfl
      (fun _ hw => List.mem_singleton.1 hw ▸
        uploadDown_failedAndSaved accountY rfl (Or.inr rfl))).2.1
      (by decide) (by decide)).2,
    ((retry_limit_policy accountX shareR1 [uploadDown] rfl rfl
      (fun _ hw => List.mem_singleton.1 hw ▸
        uploadDown_failedAndSaved accountX rfl (Or.inl rfl))).1
      (by decide) (by decide)).1,
    ((retry_limit_policy accountX shareR1 [uploadDown] rfl rfl
      (fun _ hw => List.mem_singleton.1 hw ▸
        uploadDown_failedAndSaved accountX rfl (Or.inl rfl))).1
      (by decide) (by decide)).2,
    ((retry_limit_policy accountX shareR1 [uploadDown, uploadDown] rfl rfl
      (fun _ hw => by
        simp only [List.mem_cons, List.mem_singleton, List.not_mem_nil, or_false,
          or_self] at hw
        exact hw ▸ uploadDown_failedAndSaved accountX rfl (Or.inl rfl))).2.1
      (by decide) (by decide)).2⟩

/-! ## Directory creation is repeated -/

/-- C2, the behaviour of the code: R1 and R2 of account X have the same
parent directory `/shared/album1`, every call succeeds, and one run calls
`CreateDir` for that directory twice, once for each record. -/
theorem createDir_is_repeated :
    twoShares.filepathDir shareR1.RemoteName = "/shared/album1" ∧
    twoShares.filepathDir shareR2.RemoteName = "/shared/album1" ∧
    (Share.Start twoShares).trace =
      [Event.mutexStart,
        Event.accountSearch true,
        Event.canceled false,
        Event.fileShares accountX "new",
        Event.webdavNew accountX,
        Event.canceled false,
        Event.createDir accountX "/shared/album1",
        Event.upload accountX "/originals/2020/a.jpg" "/shared/album1/a.jpg",
        Event.logInfof "share: uploaded /shared/album1/a.jpg to X",
        Event.canceled false,
        Event.save accountX { shareR1 with Status := "shared" },
        Event.canceled false,
        Event.createDir accountX "/shared/album1",
        Event.upload accountX "/originals/2020/b.jpg" "/shared/album1/b.jpg",
        Event.logInfof "share: uploaded /shared/album1/b.jpg to X",
        Event.canceled false,
        Event.save accountX { shareR2 with Status := "shared" },
        Event.canceled false,
        Event.expiredFileShares accountX,
        Event.mutexStop] ∧
    (Share.Start twoShares).trace.count (Event.createDir accountX "/shared/album1") = 2 := by
  refine ⟨by decide, by decide, by decide, by decide⟩

/-! ## A failed account query -/

/-- C6, the behaviour of the code: the account query answers with account X
and the error `database is locked`.  The run queries the new shares of X,
makes a client, creates the directory, uploads R1 and saves it, queries the
expired shares, and returns the error only then; when the run is canceled
from its start it returns nil and the error is lost. -/
theorem failed_account_query_is_not_checked :
    failedSearch.accountSearch [Event.mutexStart] true =
      ([accountX], some "database is locked") ∧
    Share.Start failedSearch =
      { trace :=
          [Event.mutexStart,
            Event.accountSearch true,
            Event.canceled false,
            Event.fileShares accountX "new",
            Event.webdavNew accountX,
            Event.canceled false,
            Event.createDir accountX "/shared/album1",
            Event.upload accountX "/originals/2020/a.jpg" "/shared/album1/a.jpg",
            Event.logInfof "share: uploaded /shared/album1/a.jpg to X",
            Event.canceled false,
            Event.save accountX { shareR1 with Status := "shared" },
            Event.canceled false,
            Event.expiredFileShares accountX,
            Event.mutexStop],
        err := some "database is locked" } ∧
    Share.Start (failedSearch.cancelAt 0) =
      { trace :=
          [Event.mutexStart, Event.accountSearch true, Event.canceled true, Event.mutexStop],
        err := none } := by
  refine ⟨rfl, by decide, by decide⟩


/-! ## Calls that start after a cancellation request -/

theorem lateCalls_snoc (p : Nat) (st : List Event) (e : Event) :
    lateCalls p (st ++ [e]) =
      lateCalls p st ++ (if e.isRemoteOrSave = true ∧ p ≤ st.length then [e] else []) := by
  unfold lateCalls
  rw [List.drop_append_eq_append_drop, List.filter_append]
  congr 1
  by_cases hp : p ≤ st.length
  · rw [Nat.sub_eq_zero_of_le hp]
    cases he : e.isRemoteOrSave <;> simp [List.filter, he, hp]
  · have : p - st.length = (p - st.length - 1) + 1 := by omega
    rw [this]
    simp [hp]

theorem lateCalls_early (p : Nat) (st : List Event) (h : st.length ≤ p) :
    lateCalls p st = [] := by
  unfold lateCalls
  rw [List.drop_eq_nil_of_le h]
  rfl

theorem lateCalls_snoc_quiet (p : Nat) (st : List Event) (e : Event)
    (h : e.isRemoteOrSave = false) : lateCalls p (st ++ [e]) = lateCalls p st := by
  rw [lateCalls_snoc, if_neg (by simp [h]), List.append_nil]

theorem lateCalls_snoc_early (p : Nat) (st : List Event) (e : Event)
    (h : st.length < p) : lateCalls p (st ++ [e]) = [] := by
  rw [lateCalls_snoc, lateCalls_early p st (by omega), if_neg (by omega)]
  rfl

theorem lateCalls_snoc_late (p : Nat) (st : List Event) (e : Event)
    (h : p ≤ st.length) (he : e.isRemoteOrSave = true) :
    lateCalls p (st ++ [e]) = lateCalls p st ++ [e] := by
  rw [lateCalls_snoc, if_pos ⟨he, h⟩]

theorem lateCalls_append_quiet (p : Nat) (st seg : List Event)
    (h : ∀ e ∈ seg, e.isRemoteOrSave = false) : lateCalls p (st ++ seg) = lateCalls p st := by
  induction seg using List.reverseRecOn with
  | nil => simp
  | append_singleton seg e ih =>
    rw [← List.append_assoc, lateCalls_snoc_quiet _ _ _ (h e (by simp))]
    exact ih (fun x hx => h x (List.mem_append_left _ hx))

theorem logError_quiet (err : Option String) :
    ∀ e ∈ Share.logError err, e.isRemoteOrSave = false ∧ e.isCall = true := by
  cases err <;> simp [Share.logError, Event.isRemoteOrSave, Event.isCall]

theorem uploadLog_quiet (a : Account) (file : FileShare) (err : Option String) :
    ∀ e ∈ uploadLog a file err, e.isRemoteOrSave = false ∧ e.isCall = true := by
  cases err <;> simp [uploadLog, Share.logError, Event.isRemoteOrSave, Event.isCall]

theorem deleteLog_quiet (a : Account) (file : FileShare) (err : Option String) :
    ∀ e ∈ deleteLog a file err, e.isRemoteOrSave = false ∧ e.isCall = true := by
  cases err <;> simp [deleteLog, Event.isRemoteOrSave, Event.isCall]

theorem pollAt_append {p : Nat} {st : List Event} (seg : List Event) (h : PollAt p st) :
    PollAt p (st ++ seg) := by
  obtain ⟨hp, b, hb⟩ := h
  refine ⟨hp, b, ?_⟩
  obtain ⟨hlt, _⟩ := List.getElem?_eq_some.1 hb
  rw [List.getElem?_append_left hlt]
  exact hb

theorem pollAt_here {p : Nat} {st : List Event} (b : Bool) (h : st.length + 1 = p) :
    PollAt p (st ++ [Event.canceled b]) := by
  refine ⟨by omega, b, ?_⟩
  have : p - 1 = st.length := by omega
  rw [this, List.getElem?_concat_length]

theorem strictLate_allowed {late : List Event} (h : StrictLate late) :
    allowedLate late = true := by
  obtain ⟨hlen, hall⟩ := h
  match late, hlen, hall with
  | [], _, _ => rfl
  | [e], _, hall =>
    have := hall e (List.mem_singleton_self e)
    cases e <;> simp_all [Event.isUploadOrSave, allowedLate]
  | _ :: _ :: _, hlen, _ => simp at hlen

theorem honoured_of_strict {p : Nat} {st : List Event} (h : StrictLate (lateCalls p st)) :
    Honoured p st :=
  ⟨strictLate_allowed h, Or.inr h⟩

theorem honoured_of_nil {p : Nat} {st : List Event} (h : lateCalls p st = []) :
    Honoured p st :=
  honoured_of_strict (by simp [StrictLate, h])

theorem honoured_append_quiet {p : Nat} {st : List Event} (seg : List Event)
    (hseg : ∀ e ∈ seg, e.isRemoteOrSave = false) (h : Honoured p st) :
    Honoured p (st ++ seg) := by
  unfold Honoured
  rw [lateCalls_append_quiet p st seg hseg]
  exact ⟨h.1, h.2.imp (pollAt_append seg) id⟩

theorem honoured_quiet {p : Nat} {st : List Event} (e : Event)
    (he : e.isRemoteOrSave = false) (h : Honoured p st) : Honoured p (st ++ [e]) :=
  honoured_append_quiet [e] (by simpa using he) h

theorem lateDirOnly_append_quiet {p : Nat} {a : Account} {st : List Event} (seg : List Event)
    (hseg : ∀ e ∈ seg, e.isRemoteOrSave = false) (h : LateDirOnly p a st) :
    LateDirOnly p a (st ++ seg) := by
  unfold LateDirOnly
  rw [lateCalls_append_quiet p st seg hseg]
  exact h.imp id (fun h2 => ⟨pollAt_append seg h2.1, h2.2⟩)

theorem honoured_of_lateDirOnly {p : Nat} {a : Account} {st : List Event}
    (h : LateDirOnly p a st) : Honoured p st := by
  rcases h with h | ⟨hpoll, dir, h⟩
  · exact honoured_of_nil h
  · exact ⟨by rw [h]; rfl, Or.inl hpoll⟩

theorem canceled_cancelAt (w : World) (p : Nat) (st : List Event) :
    (w.cancelAt p).canceled st = decide (p ≤ st.length) := rfl

theorem early_of_not_canceled {w : World} {p : Nat} {st : List Event}
    (h : (w.cancelAt p).canceled st = false) : st.length < p := by
  rw [canceled_cancelAt] at h
  simpa using h

theorem ensureDir_late (w : World) (p : Nat) (a : Account) (dirs : List (String × String))
    (st : List Event) (file : FileShare) (h : st.length < p) :
    LateDirOnly p a (ensureDir w a dirs (st ++ [Event.canceled false]) file).1 := by
  have h0 : lateCalls p (st ++ [Event.canceled false]) = [] :=
    lateCalls_early p _ (by simp; omega)
  have key : ∀ dir, LateDirOnly p a
      (st ++ [Event.canceled false] ++ [Event.createDir a dir]) := by
    intro dir
    by_cases hp : p ≤ (st ++ [Event.canceled false]).length
    · refine Or.inr ⟨pollAt_append _ (pollAt_here false (by simp at hp; omega)), dir, ?_⟩
      rw [lateCalls_snoc_late p _ (Event.createDir a dir) hp rfl, h0]
      rfl
    · exact Or.inl (lateCalls_snoc_early p _ _ (by omega))
  unfold ensureDir
  simp only
  split
  · split
    · exact lateDirOnly_append_quiet _ (by simp [Event.isRemoteOrSave]) (key _)
    · exact key _
  · exact Or.inl h0

theorem sourceFile_quiet_seg (w : World) (a : Account) (st : List Event) (file : FileShare) :
    ∃ seg, (sourceFile w a st file).1 = st ++ seg ∧
      ∀ e ∈ seg, e.isRemoteOrSave = false ∧ e.isCall = true := by
  unfold sourceFile
  simp only
  split
  · split
    · exact ⟨[Event.logErrorf ("share: invalid size " ++ a.ShareSize)], rfl,
        by simp [Event.isRemoteOrSave, Event.isCall]⟩
    · split
      · next t _ _ msg _ =>
        exact ⟨[Event.fromFile a (w.pathJoin w.originalsPath file.File.FileName)
          file.File.FileHash w.thumbPath t, Event.logErrorf ("share: " ++ msg)],
          by simp [Share.logError], by simp [Event.isRemoteOrSave, Event.isCall]⟩
      · next t _ _ _ =>
        exact ⟨[Event.fromFile a (w.pathJoin w.originalsPath file.File.FileName)
          file.File.FileHash w.thumbPath t], rfl, by simp [Event.isRemoteOrSave, Event.isCall]⟩
  · exact ⟨[], by simp, by simp⟩

theorem ends_return {Inv : List Event → Prop} {st : List Event} (h : Inv st) :
    Ends Inv Inv (st, Ctl.returnNil) :=
  ⟨fun hc => by simp at hc, fun _ => h⟩

theorem ends_next {Inv : List Event → Prop} {st : List Event} (h : Inv st) :
    Ends Inv Inv (st, Ctl.next) :=
  ⟨fun _ => h, fun hc => by simp at hc⟩

theorem uploadAndSave_late (w : World) (p : Nat) (a : Account) (st : List Event)
    (file : FileShare) (src : String) (h : LateDirOnly p a st) :
    Ends (Honoured p) (Honoured p) (uploadAndSave (w.cancelAt p) a st file src).2 := by
  unfold uploadAndSave
  simp only
  have h1 : Honoured p (st ++ [Event.upload a src file.RemoteName] ++
      uploadLog a file ((w.cancelAt p).upload st a src file.RemoteName)) := by
    refine honoured_append_quiet _ (fun e he => (uploadLog_quiet a file _ e he).1) ?_
    by_cases hp : p ≤ st.length
    · rcases h with h | ⟨hpoll, dir, h⟩
      · refine honoured_of_strict ?_
        rw [lateCalls_snoc_late p st (Event.upload a src file.RemoteName) hp rfl, h]
        simp [StrictLate, Event.isUploadOrSave]
      · refine ⟨?_, Or.inl (pollAt_append _ hpoll)⟩
        rw [lateCalls_snoc_late p st (Event.upload a src file.RemoteName) hp rfl, h]
        rfl
    · exact honoured_of_nil (lateCalls_snoc_early p _ _ (by omega))
  generalize st ++ [Event.upload a src file.RemoteName] ++
    uploadLog a file ((w.cancelAt p).upload st a src file.RemoteName) = st1 at h1
  cases hc : (w.cancelAt p).canceled st1 with
  | true => exact ends_return (honoured_quiet _ rfl h1)
  | false =>
    have hlt := early_of_not_canceled hc
    refine ends_next (honoured_append_quiet _ (fun e he => (logError_quiet _ e he).1)
      (honoured_of_strict ?_))
    rw [lateCalls_snoc, lateCalls_early p _ (by simp; omega)]
    split <;> simp [StrictLate, Event.isUploadOrSave]

theorem uploadFile_late (w : World) (p : Nat) (a : Account) (dirs : List (String × String))
    (st : List Event) (file : FileShare) (h : Honoured p st) :
    Ends (Honoured p) (Honoured p) (uploadFile (w.cancelAt p) a dirs st file).2 := by
  unfold uploadFile
  simp only
  cases hc : (w.cancelAt p).canceled st with
  | true => exact ends_return (honoured_quiet _ rfl h)
  | false =>
    have h2 := ensureDir_late (w.cancelAt p) p a dirs st file (early_of_not_canceled hc)
    simp only [Bool.false_eq_true, if_false]
    split
    · next st2 heq =>
      rw [heq] at h2
      exact ends_next (honoured_of_lateDirOnly h2)
    · next st2 heq =>
      rw [heq] at h2
      obtain ⟨seg, hseg, hquiet⟩ := sourceFile_quiet_seg (w.cancelAt p) a st2 file
      have h3 : LateDirOnly p a (sourceFile (w.cancelAt p) a st2 file).1 := by
        rw [hseg]
        exact lateDirOnly_append_quiet seg (fun e he => (hquiet e he).1) h2
      split
      · next st3 heq3 =>
        rw [heq3] at h3
        exact ends_next (honoured_of_lateDirOnly h3)
      · next st3 src heq3 =>
        rw [heq3] at h3
        exact uploadAndSave_late w p a st3 file src h3

theorem expireFile_late (w : World) (p : Nat) (a : Account)
    (st : List Event) (file : FileShare) (h : Honoured p st) :
    Ends (Honoured p) (Honoured p) (expireFile (w.cancelAt p) a st file).2 := by
  unfold expireFile
  simp only
  cases hc : (w.cancelAt p).canceled st with
  | true => exact ends_return (honoured_quiet _ rfl h)
  | false =>
    have hlt := early_of_not_canceled hc
    simp only [Bool.false_eq_true, if_false]
    refine ends_next (honoured_append_quiet _ (fun e he => (logError_quiet _ e he).1) ?_)
    have h0 : lateCalls p (st ++ [Event.canceled false]) = [] :=
      lateCalls_early p _ (by simp; omega)
    by_cases hp : p ≤ (st ++ [Event.canceled false]).length
    · refine ⟨?_, Or.inl (pollAt_append _ (pollAt_append _ (pollAt_append _
        (pollAt_here false (by simp at hp; omega)))))⟩
      rw [lateCalls_snoc_late p _ (Event.save a _) (by simp at hp ⊢; omega) rfl,
        lateCalls_append_quiet _ _ _ (fun e he => (deleteLog_quiet a file _ e he).1),
        lateCalls_snoc_late p _ (Event.delete a file.RemoteName) hp rfl, h0]
      rfl
    · refine honoured_of_strict ?_
      rw [lateCalls_snoc,
        lateCalls_append_quiet _ _ _ (fun e he => (deleteLog_quiet a file _ e he).1),
        lateCalls_snoc_early p _ _ (by omega)]
      split <;> simp [StrictLate, Event.isUploadOrSave]

theorem uploadAccount_late (w : World) (p : Nat) (a : Account) (st : List Event)
    (h : Honoured p st) :
    Ends (Honoured p) (Honoured p) (uploadAccount (w.cancelAt p) st a) := by
  unfold uploadAccount
  simp only
  cases hc : (w.cancelAt p).canceled st with
  | true => exact ends_return (honoured_quiet _ rfl h)
  | false =>
    simp only [Bool.false_eq_true, if_false]
    have h0 := honoured_quiet (Event.canceled false) rfl h
    split
    · exact ends_next h0
    · have h1 := honoured_quiet (Event.fileShares a entity.FileShareNew) rfl h0
      split
      · exact ends_next (honoured_append_quiet _ (fun e he => (logError_quiet _ e he).1) h1)
      · split
        · exact ends_next h1
        · exact uploadFiles_rule (w.cancelAt p) a [] _ _
            (fun st2 file h2 => uploadFile_late w p a [] st2 file h2) _ _
            (honoured_quiet (Event.webdavNew a) rfl h1)

theorem expireAccount_late (w : World) (p : Nat) (a : Account) (st : List Event)
    (h : Honoured p st) :
    Ends (Honoured p) (Honoured p) (expireAccount (w.cancelAt p) st a) := by
  unfold expireAccount
  simp only
  cases hc : (w.cancelAt p).canceled st with
  | true => exact ends_return (honoured_quiet _ rfl h)
  | false =>
    simp only [Bool.false_eq_true, if_false]
    have h0 := honoured_quiet (Event.canceled false) rfl h
    split
    · exact ends_next h0
    · have h1 := honoured_quiet (Event.expiredFileShares a) rfl h0
      split
      · exact ends_next (honoured_append_quiet _ (fun e he => (logError_quiet _ e he).1) h1)
      · split
        · exact ends_next h1
        · exact expireFiles_rule (w.cancelAt p) a _ _
            (fun st2 file h2 => expireFile_late w p a st2 file h2) _ _
            (honoured_quiet (Event.webdavNew a) rfl h1)

theorem Start_both (w : World) (Inv : List Event → Prop)
    (hgate : ∀ msg, Inv [Event.mutexStart, Event.eventError ("share: " ++ msg)])
    (hinit : Inv ([Event.mutexStart] ++ [Event.accountSearch true]))
    (hstop : ∀ st, Inv st → Inv (st ++ [Event.mutexStop]))
    (hupload : ∀ st a, Inv st → Ends Inv Inv (uploadAccount w st a))
    (hexpire : ∀ st a, Inv st → Ends Inv Inv (expireAccount w st a)) :
    Inv (Share.Start w).trace := by
  unfold Share.Start
  cases hg : w.mutexStart with
  | some msg => exact hgate msg
  | none =>
    simp only
    have hu := uploadAccounts_rule w Inv Inv (w.accountSearch [Event.mutexStart] true).1
      (fun st a _ h => hupload st a h) _ hinit
    rcases huv : uploadAccounts w ([Event.mutexStart] ++ [Event.accountSearch true])
      (w.accountSearch [Event.mutexStart] true).1 with ⟨st1, c1⟩
    rw [huv] at hu
    cases c1 with
    | returnNil => exact hstop _ (hu.2 rfl)
    | next =>
      have h1 := hu.1 rfl
      have he := expireAccounts_rule w Inv Inv (w.accountSearch [Event.mutexStart] true).1
        (fun st a _ h => hexpire st a h) _ h1
      dsimp only at he ⊢
      rcases hev : expireAccounts w st1 (w.accountSearch [Event.mutexStart] true).1
        with ⟨st2, c2⟩
      rw [hev] at he
      cases c2 with
      | returnNil => exact hstop _ (he.2 rfl)
      | next => exact hstop _ (he.1 rfl)

theorem Start_late (w : World) (p : Nat) : Honoured p (Share.Start (w.cancelAt p)).trace := by
  apply Start_both (w.cancelAt p) (Honoured p)
  · intro msg
    exact @honoured_append_quiet p [] _ (by simp [Event.isRemoteOrSave])
      (honoured_of_nil (lateCalls_early p [] (by simp)))
  · exact honoured_quiet _ rfl (@honoured_append_quiet p [] _
      (by simp [Event.isRemoteOrSave]) (honoured_of_nil (lateCalls_early p [] (by simp))))
  · exact fun st h => honoured_quiet _ rfl h
  · exact fun st a h => uploadAccount_late w p a st h
  · exact fun st a h => expireAccount_late w p a st h

/-! ## What the polls answer -/

theorem truthful_append_calls {p : Nat} {st : List Event} (seg : List Event)
    (hseg : ∀ e ∈ seg, e.isCall = true) (h : PollsTruthful p st) :
    PollsTruthful p (st ++ seg) := by
  intro i b hi
  rw [List.getElem?_append] at hi
  split at hi
  · exact h i b hi
  · obtain ⟨hlt, hget⟩ := List.getElem?_eq_some.1 hi
    have hmem : Event.canceled b ∈ seg := hget ▸ List.getElem_mem hlt
    have := hseg _ hmem
    simp [Event.isCall] at this

theorem truthful_call {p : Nat} {st : List Event} (e : Event) (he : e.isCall = true)
    (h : PollsTruthful p st) : PollsTruthful p (st ++ [e]) :=
  truthful_append_calls [e] (by simpa using he) h

theorem truthful_poll {w : World} {p : Nat} {st : List Event} {b : Bool}
    (hc : (w.cancelAt p).canceled st = b) (h : PollsTruthful p st) :
    PollsTruthful p (st ++ [Event.canceled b]) := by
  intro i c hi
  rw [List.getElem?_append] at hi
  split at hi
  · exact h i c hi
  · next hge =>
    by_cases heq : i = st.length
    · subst heq
      simp only [Nat.sub_self, List.getElem?_cons_zero, Option.some.injEq,
        Event.canceled.injEq] at hi
      rw [← hi, ← hc, canceled_cancelAt]
    · have : i - st.length = (i - st.length - 1) + 1 := by omega
      rw [this] at hi
      simp at hi

theorem ensureDir_call_seg (w : World) (a : Account) (dirs : List (String × String))
    (st : List Event) (file : FileShare) :
    ∃ seg, (ensureDir w a dirs st file).1 = st ++ seg ∧ ∀ e ∈ seg, e.isCall = true := by
  unfold ensureDir
  simp only
  split
  · split
    · exact ⟨[Event.createDir a (w.filepathDir file.RemoteName),
        Event.logErrorf ("share: could not create folder " ++ w.filepathDir file.RemoteName)],
        by simp, by simp [Event.isCall]⟩
    · exact ⟨[Event.createDir a (w.filepathDir file.RemoteName)], rfl, by simp [Event.isCall]⟩
  · exact ⟨[], by simp, by simp⟩

theorem uploadAndSave_truthful (w : World) (p : Nat) (a : Account) (st : List Event)
    (file : FileShare) (src : String) (h : PollsTruthful p st) :
    Ends (PollsTruthful p) (PollsTruthful p)
      (uploadAndSave (w.cancelAt p) a st file src).2 := by
  unfold uploadAndSave
  simp only
  have h1 : PollsTruthful p (st ++ [Event.upload a src file.RemoteName] ++
      uploadLog a file ((w.cancelAt p).upload st a src file.RemoteName)) :=
    truthful_append_calls _ (fun e he => (uploadLog_quiet a file _ e he).2)
      (truthful_call _ rfl h)
  generalize st ++ [Event.upload a src file.RemoteName] ++
    uploadLog a file ((w.cancelAt p).upload st a src file.RemoteName) = st1 at h1
  cases hc : (w.cancelAt p).canceled st1 with
  | true => exact ends_return (truthful_poll hc h1)
  | false =>
    exact ends_next (truthful_append_calls _ (fun e he => (logError_quiet _ e he).2)
      (truthful_call _ rfl (truthful_poll hc h1)))

theorem uploadFile_truthful (w : World) (p : Nat) (a : Account)
    (dirs : List (String × String)) (st : List Event) (file : FileShare)
    (h : PollsTruthful p st) :
    Ends (PollsTruthful p) (PollsTruthful p)
      (uploadFile (w.cancelAt p) a dirs st file).2 := by
  unfold uploadFile
  simp only
  cases hc : (w.cancelAt p).canceled st with
  | true => exact ends_return (truthful_poll hc h)
  | false =>
    simp only [Bool.false_eq_true, if_false]
    obtain ⟨segd, hsegd, hcalld⟩ := ensureDir_call_seg (w.cancelAt p) a dirs
      (st ++ [Event.canceled false]) file
    have h2 : PollsTruthful p
        (ensureDir (w.cancelAt p) a dirs (st ++ [Event.canceled false]) file).1 := by
      rw [hsegd]
      exact truthful_append_calls segd hcalld (truthful_poll hc h)
    split
    · next st2 heq =>
      rw [heq] at h2
      exact ends_next h2
    · next st2 heq =>
      rw [heq] at h2
      obtain ⟨seg, hseg, hquiet⟩ := sourceFile_quiet_seg (w.cancelAt p) a st2 file
      have h3 : PollsTruthful p (sourceFile (w.cancelAt p) a st2 file).1 := by
        rw [hseg]
        exact truthful_append_calls seg (fun e he => (hquiet e he).2) h2
      split
      · next st3 heq3 =>
        rw [heq3] at h3
        exact ends_next h3
      · next st3 src heq3 =>
        rw [heq3] at h3
        exact uploadAndSave_truthful w p a st3 file src h3

theorem expireFile_truthful (w : World) (p : Nat) (a : Account)
    (st : List Event) (file : FileShare) (h : PollsTruthful p st) :
    Ends (PollsTruthful p) (PollsTruthful p) (expireFile (w.cancelAt p) a st file).2 := by
  unfold expireFile
  simp only
  cases hc : (w.cancelAt p).canceled st with
  | true => exact ends_return (truthful_poll hc h)
  | false =>
    simp only [Bool.false_eq_true, if_false]
    exact ends_next (truthful_append_calls _ (fun e he => (logError_quiet _ e he).2)
      (truthful_call _ rfl (truthful_append_calls _
        (fun e he => (deleteLog_quiet a file _ e he).2)
        (truthful_call _ rfl (truthful_poll hc h)))))

theorem uploadAccount_truthful (w : World) (p : Nat) (a : Account) (st : List Event)
    (h : PollsTruthful p st) :
    Ends (PollsTruthful p) (PollsTruthful p) (uploadAccount (w.cancelAt p) st a) := by
  unfold uploadAccount
  simp only
  cases hc : (w.cancelAt p).canceled st with
  | true => exact ends_return (truthful_poll hc h)
  | false =>
    simp only [Bool.false_eq_true, if_false]
    have h0 := truthful_poll hc h
    split
    · exact ends_next h0
    · have h1 := truthful_call (Event.fileShares a entity.FileShareNew) rfl h0
      split
      · exact ends_next (truthful_append_calls _ (fun e he => (logError_quiet _ e he).2) h1)
      · split
        · exact ends_next h1
        · exact uploadFiles_rule (w.cancelAt p) a [] _ _
            (fun st2 file h2 => uploadFile_truthful w p a [] st2 file h2) _ _
            (truthful_call (Event.webdavNew a) rfl h1)

theorem expireAccount_truthful (w : World) (p : Nat) (a : Account) (st : List Event)
    (h : PollsTruthful p st) :
    Ends (PollsTruthful p) (PollsTruthful p) (expireAccount (w.cancelAt p) st a) := by
  unfold expireAccount
  simp only
  cases hc : (w.cancelAt p).canceled st with
  | true => exact ends_return (truthful_poll hc h)
  | false =>
    simp only [Bool.false_eq_true, if_false]
    have h0 := truthful_poll hc h
    split
    · exact ends_next h0
    · have h1 := truthful_call (Event.expiredFileShares a) rfl h0
      split
      · exact ends_next (truthful_append_calls _ (fun e he => (logError_quiet _ e he).2) h1)
      · split
        · exact ends_next h1
        · exact expireFiles_rule (w.cancelAt p) a _ _
            (fun st2 file h2 => expireFile_truthful w p a st2 file h2) _ _
            (truthful_call (Event.webdavNew a) rfl h1)

theorem Start_truthful (w : World) (p : Nat) :
    PollsTruthful p (Share.Start (w.cancelAt p)).trace := by
  have hnil : PollsTruthful p [] := by
    intro i b hi
    simp at hi
  apply Start_both (w.cancelAt p) (PollsTruthful p)
  · intro msg
    exact @truthful_append_calls p [] _ (by simp [Event.isCall]) hnil
  · exact truthful_call _ rfl (@truthful_append_calls p [] _ (by simp [Event.isCall]) hnil)
  · exact fun st h => truthful_call _ rfl h
  · exact fun st a h => uploadAccount_truthful w p a st h
  · exact fun st a h => expireAccount_truthful w p a st h

/-! ## Cancellation -/

/-- C7, the claim as stated fails: account X has the new share R1 and the
expired share R4, and every call succeeds.  When the request arrives while
`CreateDir` for R1 is in flight (event 6 of the trace), `Upload` for R1 is
still started; when it arrives while `Delete` for R4 is in flight (event
15), `Save` for R4 is still started; when it arrives right after the poll
before R1 has answered false (event 5), `CreateDir` and `Upload` for R1 are
both started. -/
theorem cancellation_lets_the_record_finish :
    ((Share.Start (newAndExpired.cancelAt 7)).trace[6]? =
        some (Event.createDir accountX "/shared/album1") ∧
      lateCalls 7 (Share.Start (newAndExpired.cancelAt 7)).trace =
        [Event.upload accountX "/originals/2020/a.jpg" "/shared/album1/a.jpg"]) ∧
    ((Share.Start (newAndExpired.cancelAt 16)).trace[15]? =
        some (Event.delete accountX "/shared/album2/c.jpg") ∧
      lateCalls 16 (Share.Start (newAndExpired.cancelAt 16)).trace =
        [Event.save accountX
          { shareR4 with Errors := 0, Error := "", Status := "removed" }]) ∧
    ((Share.Start (newAndExpired.cancelAt 6)).trace[5]? = some (Event.canceled false) ∧
      lateCalls 6 (Share.Start (newAndExpired.cancelAt 6)).trace =
        [Event.createDir accountX "/shared/album1",
          Event.upload accountX "/originals/2020/a.jpg" "/shared/album1/a.jpg"]) := by
  refine ⟨⟨by decide, by decide⟩, ⟨by decide, by decide⟩, ⟨by decide, by decide⟩⟩

/-- C7 (as amended): a cancellation request arrives at point `p` of a run,
after the first `p` events of its trace, so that `Canceled()` answers `true`
from then on.  Every poll made at or after `p` answers `true`, and a poll
that answers `true` ends the run: it is the only such poll, the deferred
`Stop` is the only call after it, and `Start` returns nil.  The remote and
persistence calls that start at or after `p` are none, or one `CreateDir`,
`Upload` or `Save`, or `CreateDir` followed by `Upload`, or `Delete`
followed by `Save`.  When the event before `p` is a call and not a poll
(the call in flight at the request), they are at most one, an `Upload` or a
`Save`. -/
theorem cancellation_stops_at_the_next_poll (w : World) (p : Nat) :
    (∀ i b, (Share.Start (w.cancelAt p)).trace[i]? = some (Event.canceled b) →
      b = decide (p ≤ i)) ∧
    (Event.canceled true ∈ (Share.Start (w.cancelAt p)).trace →
      (Share.Start (w.cancelAt p)).err = none ∧
      ∃ pre, (Share.Start (w.cancelAt p)).trace =
          pre ++ [Event.canceled true] ++ [Event.mutexStop] ∧
        Event.canceled true ∉ pre) ∧
    allowedLate (lateCalls p (Share.Start (w.cancelAt p)).trace) = true ∧
    (∀ e, 0 < p → (Share.Start (w.cancelAt p)).trace[p - 1]? = some e → e.isCall = true →
      (lateCalls p (Share.Start (w.cancelAt p)).trace).length ≤ 1 ∧
      ∀ x ∈ lateCalls p (Share.Start (w.cancelAt p)).trace, x.isUploadOrSave = true) := by
  refine ⟨Start_truthful w p, Start_canceled (w.cancelAt p), (Start_late w p).1, ?_⟩
  intro e _ he hcall
  rcases (Start_late w p).2 with ⟨_, b, hb⟩ | hstrict
  · rw [he] at hb
    cases hb
    simp [Event.isCall] at hcall
  · exact hstrict

/-! ## Accounts of other protocols -/

/-- C10: let `a` be an account whose type is not WebDAV.  No run makes a
record query, a client, a remote call or a save for `a`.  An iteration of
either loop over the accounts that is not canceled polls `Canceled()`, does
nothing else for `a` and falls through: the loop goes on with the remaining
accounts. -/
theorem other_protocols_are_skipped (w : World) (st : List Event) (a : Account)
    (accounts : List Account)
    (hother : a.AccType ≠ remote.ServiceWebDAV) (hrun : w.canceled st = false) :
    (∀ e ∈ (Share.Start w).trace, e.account ≠ some a) ∧
    uploadAccount w st a = (st ++ [Event.canceled false], Ctl.next) ∧
    expireAccount w st a = (st ++ [Event.canceled false], Ctl.next) ∧
    uploadAccounts w st (a :: accounts) =
      uploadAccounts w (st ++ [Event.canceled false]) accounts ∧
    expireAccounts w st (a :: accounts) =
      expireAccounts w (st ++ [Event.canceled false]) accounts := by
  have hu : uploadAccount w st a = (st ++ [Event.canceled false], Ctl.next) := by
    unfold uploadAccount
    simp only [hrun, Bool.false_eq_true, if_false, hother, ne_eq, not_false_eq_true, if_true]
  have he : expireAccount w st a = (st ++ [Event.canceled false], Ctl.next) := by
    unfold expireAccount
    simp only [hrun, Bool.false_eq_true, if_false, hother, ne_eq, not_false_eq_true, if_true]
  refine ⟨fun e hmem hacc => hother (Start_onlyWebDAV w e hmem a hacc), hu, he, ?_, ?_⟩
  · rw [uploadAccounts_cons, hu]
    simp
  · rw [expireAccounts_cons, he]
    simp

/-- The account query answers with account Z, of type `ftp`, and account X:
no call of the run is made for Z, and both loops go on with X. -/
theorem other_protocols_are_skipped_witness :
    (∀ e ∈ (Share.Start mixed).trace, e.account ≠ some accountZ) ∧
    uploadAccount mixed [Event.mutexStart, Event.accountSearch true] accountZ =
      ([Event.mutexStart, Event.accountSearch true] ++ [Event.canceled false], Ctl.next) ∧
    expireAccount mixed [Event.mutexStart, Event.accountSearch true] accountZ =
      ([Event.mutexStart, Event.accountSearch true] ++ [Event.canceled false], Ctl.next) ∧
    uploadAccounts mixed [Event.mutexStart, Event.accountSearch true] [accountZ, accountX] =
      uploadAccounts mixed ([Event.mutexStart, Event.accountSearch true] ++
        [Event.canceled false]) [accountX] ∧
    expireAccounts mixed [Event.mutexStart, Event.accountSearch true] [accountZ, accountX] =
      expireAccounts mixed ([Event.mutexStart, Event.accountSearch true] ++
        [Event.canceled false]) [accountX] :=
  other_protocols_are_skipped mixed [Event.mutexStart, Event.accountSearch true] accountZ
    [accountX] (by decide) rfl

end Workers
